import Mathlib

/-!
Shallow embedding of the claw-migrate configuration conversion and workspace
migration engine (src/internal/config/config.go and
src/internal/migrate/migrate.go), together with theorems settling the
specification's claims about it.

Modelling conventions:
* Go strings are byte sequences (`List Nat`, each entry < 256); `gs` encodes
  a Lean string literal to its UTF-8 bytes.  This keeps `camelToSnake`
  faithful: the Go function iterates runes but appends single bytes.
* A Go `map[string]interface{}` is an association list in insertion order;
  `mapSet` overwrites in place or appends, like a Go map write.  Go map
  iteration order is unspecified; the embedding iterates in list order, and
  general theorems are stated so that they do not depend on that order.
* JSON numbers (`float64` after Go's `json.Unmarshal`) are modelled as `Int`;
  every number appearing in the code's comparisons and the concrete documents
  below is integral.
-/

/-- Go string, as its byte sequence. -/
abbrev GoStr := List Nat

/-- UTF-8 bytes of one code point. -/
def utf8Bytes (c : Nat) : List Nat :=
  if c < 0x80 then [c]
  else if c < 0x800 then [0xC0 + c / 64, 0x80 + c % 64]
  else if c < 0x10000 then [0xE0 + c / 4096, 0x80 + (c / 64) % 64, 0x80 + c % 64]
  else [0xF0 + c / 262144, 0x80 + (c / 4096) % 64, 0x80 + (c / 64) % 64, 0x80 + c % 64]

/-- Encode a Lean string literal as a Go string (UTF-8 byte sequence). -/
def gs (s : String) : GoStr :=
  s.data.foldr (fun c acc => utf8Bytes c.toNat ++ acc) []

/-- Dynamically typed JSON value, the shape of Go's `interface{}` after
`json.Unmarshal`: null, bool, number, string, `[]interface{}`, or
`map[string]interface{}`. -/
inductive GoVal where
  | null : GoVal
  | bool (b : Bool) : GoVal
  | num (n : Int) : GoVal
  | str (s : GoStr) : GoVal
  | arr (xs : List GoVal) : GoVal
  | obj (m : List (GoStr × GoVal)) : GoVal

/-- Go `map[string]interface{}`, in insertion order. -/
abbrev GoMap := List (GoStr × GoVal)

/-- Association-list lookup: Go `m[k]` with its comma-ok form. -/
def mapGet {κ ν : Type} [DecidableEq κ] : List (κ × ν) → κ → Option ν
  | [], _ => none
  | (k2, v) :: rest, k => if k2 = k then some v else mapGet rest k

/-- Association-list write: Go `m[k] = v` (overwrite in place, else append). -/
def mapSet {κ ν : Type} [DecidableEq κ] : List (κ × ν) → κ → ν → List (κ × ν)
  | [], k, v => [(k, v)]
  | (k2, v2) :: rest, k, v =>
      if k2 = k then (k2, v) :: rest else (k2, v2) :: mapSet rest k v

/-- Lookup with Go's zero-value default for a missing key. -/
def mapGetD {κ ν : Type} [DecidableEq κ] (m : List (κ × ν)) (k : κ) (d : ν) : ν :=
  (mapGet m k).getD d

/-- Go `for k, v := range src { dst[k] = v }` starting from an empty map. -/
def mapCopy {κ ν : Type} [DecidableEq κ] (m : List (κ × ν)) : List (κ × ν) :=
  m.foldl (fun acc kv => mapSet acc kv.1 kv.2) []

/-- Keys of a map are pairwise distinct (true of every real Go map and of
every document produced by `json.Unmarshal`). -/
def keysNodup {κ ν : Type} (m : List (κ × ν)) : Prop :=
  (m.map Prod.fst).Nodup

instance {κ ν : Type} [DecidableEq κ] (m : List (κ × ν)) :
    Decidable (keysNodup m) := by
  unfold keysNodup; infer_instance

mutual

/-- Value stored by one iteration of the `deepMerge` loop (config.go:374-383):
when both the accumulated map and the overlay hold a map at the key the merge
recurses, otherwise the overlay value is stored as is. -/
def mergeVal (m : GoMap) (k : GoStr) : GoVal → GoVal
  | GoVal.obj overlayMap =>
      (match mapGet m k with
       | some (GoVal.obj baseMap) => GoVal.obj (mergeLoop (mapCopy baseMap) overlayMap)
       | _ => GoVal.obj overlayMap)
  | GoVal.null => GoVal.null
  | GoVal.bool b => GoVal.bool b
  | GoVal.num n => GoVal.num n
  | GoVal.str str2 => GoVal.str str2
  | GoVal.arr xs => GoVal.arr xs
termination_by v => sizeOf v
decreasing_by
  all_goals simp_wf

/-- Loop of `deepMerge` (config.go:374-384): walk the overlay entries,
storing `mergeVal` for each. -/
def mergeLoop : GoMap → List (GoStr × GoVal) → GoMap
  | m, [] => m
  | m, (k, v) :: rest => mergeLoop (mapSet m k (mergeVal m k v)) rest
termination_by _ l => sizeOf l
decreasing_by
  all_goals simp_wf
  all_goals omega

end

/-- `deepMerge` (config.go:369-386): copy the base, then fold in the overlay. -/
def deepMerge (base overlay : GoMap) : GoMap :=
  mergeLoop (mapCopy base) overlay

/-- Value stored by one iteration of the `MergeConfig` loop (config.go:47-57):
identical to `mergeVal`, written with the call to `deepMerge` the way
config.go:52 has it. -/
def mergeConfigVal (m : GoMap) (k : GoStr) : GoVal → GoVal
  | GoVal.obj inMap =>
      (match mapGet m k with
       | some (GoVal.obj existMap) => GoVal.obj (deepMerge existMap inMap)
       | _ => GoVal.obj inMap)
  | GoVal.null => GoVal.null
  | GoVal.bool b => GoVal.bool b
  | GoVal.num n => GoVal.num n
  | GoVal.str str2 => GoVal.str str2
  | GoVal.arr xs => GoVal.arr xs

/-- Loop of `MergeConfig` (config.go:47-58). -/
def mergeConfigLoop : GoMap → List (GoStr × GoVal) → GoMap
  | m, [] => m
  | m, (k, v) :: rest => mergeConfigLoop (mapSet m k (mergeConfigVal m k v)) rest

/-- `MergeConfig` (config.go:35-61).  A `nil` existing map returns the
incoming document unchanged. -/
def MergeConfig (existing : Option GoMap) (incoming : GoMap) : GoMap :=
  match existing with
  | none => incoming
  | some ex => mergeConfigLoop (mapCopy ex) incoming

/-- Continuation byte test for UTF-8 decoding. -/
def isCont (b : Nat) : Bool := 0x80 ≤ b && b ≤ 0xBF

/-- Decode the first rune the way Go's `for i, c := range s` does
(`utf8.DecodeRuneInString`): returns the code point and the number of
EXTRA bytes consumed beyond the first; any invalid sequence yields the
replacement rune U+FFFD over a single byte.  Bytes past the end of the
string are read as 0, which is never a valid continuation byte, so a
truncated sequence is invalid exactly as in Go. -/
def decodeRune (b : Nat) (rest : List Nat) : Nat × Nat :=
  let b1 := rest.getD 0 0
  let b2 := rest.getD 1 0
  let b3 := rest.getD 2 0
  if b < 0x80 then (b, 0)
  else if 0xC2 ≤ b && b ≤ 0xDF then
    if isCont b1 then ((b - 0xC0) * 64 + (b1 - 0x80), 1) else (0xFFFD, 0)
  else if 0xE0 ≤ b && b ≤ 0xEF then
    let okB1 :=
      if b = 0xE0 then 0xA0 ≤ b1 && b1 ≤ 0xBF
      else if b = 0xED then 0x80 ≤ b1 && b1 ≤ 0x9F
      else isCont b1
    if okB1 && isCont b2 then
      ((b - 0xE0) * 4096 + (b1 - 0x80) * 64 + (b2 - 0x80), 2)
    else (0xFFFD, 0)
  else if 0xF0 ≤ b && b ≤ 0xF4 then
    let okB1 :=
      if b = 0xF0 then 0x90 ≤ b1 && b1 ≤ 0xBF
      else if b = 0xF4 then 0x80 ≤ b1 && b1 ≤ 0x8F
      else isCont b1
    if okB1 && isCont b2 && isCont b3 then
      ((b - 0xF0) * 262144 + (b1 - 0x80) * 4096 + (b2 - 0x80) * 64 + (b3 - 0x80), 3)
    else (0xFFFD, 0)
  else (0xFFFD, 0)

/-- Body of `camelToSnake` (config.go:354-367): iterate runes with their byte
index `i`; an ASCII uppercase rune gets `_` inserted before it when `i > 0`
and is lowercased; every other rune is appended as the single byte `byte(c)`
(truncation to the low 8 bits, exactly as the Go code does). -/
def camelToSnakeAux : List Nat → Nat → List Nat
  | [], _ => []
  | b :: bs, i =>
      let cd := decodeRune b bs
      let rest := bs.drop cd.2
      (if 65 ≤ cd.1 && cd.1 ≤ 90 then
        (if i > 0 then [95] else []) ++ [(cd.1 + 32) % 256]
      else [cd.1 % 256]) ++ camelToSnakeAux rest (i + 1 + cd.2)
termination_by l _ => l.length
decreasing_by
  simp_wf
  omega

/-- `camelToSnake` (config.go:354-367). -/
def camelToSnake (s : GoStr) : GoStr := camelToSnakeAux s 0

/-- Read `m[k].(string)` with the comma-ok form: a missing key or a
non-string value yields the empty string. -/
def asString (v : Option GoVal) : GoStr :=
  match v with
  | some (GoVal.str s) => s
  | _ => []

/-- Provider-name → vendor table of `convertProviders` (config.go:100-109). -/
def vendorMap : List (GoStr × GoStr) :=
  [(gs "openrouter", gs "openrouter"), (gs "anthropic", gs "anthropic"),
   (gs "openai", gs "openai"), (gs "gemini", gs "gemini"),
   (gs "zhipu", gs "zhipu"), (gs "groq", gs "groq"),
   (gs "deepseek", gs "deepseek"), (gs "ollama", gs "ollama")]

/-- Vendor → default model table of `convertProviders` (config.go:112-121). -/
def defaultModels : List (GoStr × GoStr) :=
  [(gs "openrouter", gs "openrouter/anthropic/claude-sonnet-4.6"),
   (gs "anthropic", gs "anthropic/claude-sonnet-4.6"),
   (gs "openai", gs "openai/gpt-5.2"),
   (gs "gemini", gs "gemini/gemini-2.0-flash"),
   (gs "zhipu", gs "zhipu/glm-4.7"),
   (gs "groq", gs "groq/llama-3.3-70b-versatile"),
   (gs "deepseek", gs "deepseek/deepseek-chat"),
   (gs "ollama", gs "ollama/llama3")]

/-- The `api_key` read of config.go:129-132: `api_key`, falling back to the
camelCase spelling when empty. -/
def apiKeyOf (provConf : GoMap) : GoStr :=
  let k := asString (mapGet provConf (gs "api_key"))
  if k = [] then asString (mapGet provConf (gs "apiKey")) else k

/-- The `api_base` read of config.go:133-136. -/
def apiBaseOf (provConf : GoMap) : GoStr :=
  let b := asString (mapGet provConf (gs "api_base"))
  if b = [] then asString (mapGet provConf (gs "apiBase")) else b

/-- Legacy `picoProvider` record built at config.go:139-145: only the
non-empty credential fields are set. -/
def provRecord (provConf : GoMap) : GoMap :=
  let p : GoMap := []
  let p := if apiKeyOf provConf ≠ [] then mapSet p (gs "api_key") (GoVal.str (apiKeyOf provConf)) else p
  let p := if apiBaseOf provConf ≠ [] then mapSet p (gs "api_base") (GoVal.str (apiBaseOf provConf)) else p
  p

/-- `model_list` entry built at config.go:150-159 for a recognized vendor. -/
def modelEntry (name vendorPre : GoStr) (provConf : GoMap) : GoMap :=
  let e : GoMap := [(gs "model_name", GoVal.str name),
                    (gs "model", GoVal.str (mapGetD defaultModels vendorPre []))]
  let e := if apiKeyOf provConf ≠ [] then mapSet e (gs "api_key") (GoVal.str (apiKeyOf provConf)) else e
  let e := if apiBaseOf provConf ≠ [] then mapSet e (gs "api_base") (GoVal.str (apiBaseOf provConf)) else e
  e

/-- One iteration of the provider loop (config.go:123-162), threading the
`modelList` slice and the `picoProviders` map. -/
def provStep (acc : List GoMap × GoMap) (name : GoStr) : GoVal → List GoMap × GoMap
  | GoVal.obj provConf =>
      (let picoProviders := mapSet acc.2 name (GoVal.obj (provRecord provConf))
       match mapGet vendorMap name with
       | some vendorPre => (acc.1 ++ [modelEntry name vendorPre provConf], picoProviders)
       | none => (acc.1, picoProviders))
  | GoVal.null => acc
  | GoVal.bool _ => acc
  | GoVal.num _ => acc
  | GoVal.str _ => acc
  | GoVal.arr _ => acc

/-- The provider loop itself. -/
def provLoop (acc : List GoMap × GoMap) : List (GoStr × GoVal) → List GoMap × GoMap
  | [] => acc
  | (name, v) :: rest => provLoop (provStep acc name v) rest

/-- `convertProviders` (config.go:87-170): skipped silently when `providers`
is missing or not an object; `model_list` and `providers` are written only
when non-empty. -/
def convertProviders (src dst : GoMap) : GoMap :=
  match mapGet src (gs "providers") with
  | some (GoVal.obj providers) =>
      let res := provLoop ([], []) providers
      let dst := if res.1.length > 0 then mapSet dst (gs "model_list") (GoVal.arr (res.1.map GoVal.obj)) else dst
      let dst := if res.2.length > 0 then mapSet dst (gs "providers") (GoVal.obj res.2) else dst
      dst
  | _ => dst

/-- The `agent` / `agents.defaults` section lookup (config.go:173-184). -/
def agentSection (src : GoMap) : Option GoMap :=
  match mapGet src (gs "agent") with
  | some (GoVal.obj a) => some a
  | _ =>
      match mapGet src (gs "agents") with
      | some (GoVal.obj agents) =>
          match mapGet agents (gs "defaults") with
          | some (GoVal.obj d) => some d
          | _ => none
      | _ => none

/-- First non-empty string among the known model keys of an object-shaped
`model` field (config.go:201-209). -/
def firstModelKey (mo : GoMap) : List GoStr → Option GoStr
  | [] => none
  | k :: rest =>
      match mapGet mo k with
      | some (GoVal.str v) => if v ≠ [] then some v else firstModelKey mo rest
      | _ => firstModelKey mo rest

/-- Alias table of config.go:214-220, in its literal order (the Go map's
iteration order is unspecified; no source document sets two aliases of the
same target in the claims below). -/
def agentFieldMap : List (GoStr × GoStr) :=
  [(gs "max_tokens", gs "max_tokens"), (gs "maxTokens", gs "max_tokens"),
   (gs "temperature", gs "temperature"),
   (gs "max_tool_iterations", gs "max_tool_iterations"),
   (gs "maxToolIterations", gs "max_tool_iterations")]

/-- The field-copy loop of config.go:222-238: numbers only when positive,
strings only when non-empty, anything else verbatim. -/
def agentFieldLoop (defaults agent : GoMap) : List (GoStr × GoStr) → GoMap
  | [] => defaults
  | (srcKey, dstKey) :: rest =>
      let defaults :=
        match mapGet agent srcKey with
        | some v =>
            match v with
            | GoVal.num n => if n > 0 then mapSet defaults dstKey v else defaults
            | GoVal.str s => if s ≠ [] then mapSet defaults dstKey v else defaults
            | _ => mapSet defaults dstKey v
        | none => defaults
      agentFieldLoop defaults agent rest

/-- `convertAgentDefaults` (config.go:172-241). -/
def convertAgentDefaults (src dst : GoMap) : GoMap :=
  match agentSection src with
  | none => dst
  | some agent =>
      let defaults : GoMap := [(gs "workspace", GoVal.str (gs "~/.picoclaw/workspace"))]
      let defaults :=
        match mapGet agent (gs "model") with
        | some (GoVal.str m) => if m ≠ [] then mapSet defaults (gs "model") (GoVal.str m) else defaults
        | some (GoVal.obj mo) =>
            match firstModelKey mo [gs "primary", gs "name", gs "model", gs "default"] with
            | some v => mapSet defaults (gs "model") (GoVal.str v)
            | none => defaults
        | _ => defaults
      let defaults := agentFieldLoop defaults agent agentFieldMap
      mapSet dst (gs "agents") (GoVal.obj [(gs "defaults", GoVal.obj defaults)])

/-- Supported channel set of config.go:252-256. -/
def supportedChannels : List GoStr :=
  [gs "telegram", gs "discord", gs "qq", gs "dingtalk",
   gs "line", gs "slack", gs "feishu", gs "onebot"]

/-- One channel's field map, keys rewritten camelCase → snake_case
(config.go:267-271). -/
def chanFields (chConf : GoMap) : GoMap :=
  chConf.foldl (fun p kv => mapSet p (camelToSnake kv.1) kv.2) []

/-- The channel loop of config.go:258-273. -/
def chanLoop (acc : GoMap) : List (GoStr × GoVal) → GoMap
  | [] => acc
  | (name, v) :: rest =>
      if name ∈ supportedChannels then
        match v with
        | GoVal.obj chConf => chanLoop (mapSet acc name (GoVal.obj (chanFields chConf))) rest
        | _ => chanLoop acc rest
      else chanLoop acc rest

/-- `convertChannels` (config.go:243-278). -/
def convertChannels (src dst : GoMap) : GoMap :=
  match mapGet src (gs "channels") with
  | some (GoVal.obj channels) =>
      let picoChannels := chanLoop [] channels
      if picoChannels.length > 0 then mapSet dst (gs "channels") (GoVal.obj picoChannels) else dst
  | _ => dst

/-- `convertTools` (config.go:280-310). -/
def convertTools (src dst : GoMap) : GoMap :=
  match mapGet src (gs "tools") with
  | some (GoVal.obj tools) =>
      let picoTools : GoMap := []
      let picoTools : GoMap :=
        match mapGet tools (gs "web") with
        | some (GoVal.obj web) =>
            let picoWeb : GoMap := []
            let picoWeb :=
              match mapGet web (gs "brave") with
              | some (GoVal.obj brave) => mapSet picoWeb (gs "brave") (GoVal.obj brave)
              | _ => picoWeb
            let picoWeb := mapSet picoWeb (gs "duckduckgo")
              (GoVal.obj [(gs "enabled", GoVal.bool true), (gs "max_results", GoVal.num 5)])
            mapSet picoTools (gs "web") (GoVal.obj picoWeb)
        | _ => picoTools
      let picoTools : GoMap :=
        match mapGet tools (gs "cron") with
        | some (GoVal.obj cron) => mapSet picoTools (gs "cron") (GoVal.obj cron)
        | _ => picoTools
      if picoTools.length > 0 then mapSet dst (gs "tools") (GoVal.obj picoTools) else dst
  | _ => dst

/-- `convertHeartbeat` (config.go:312-336): a default `{enabled: true,
interval: 30}` always written, overridden field-by-field when the source
section exists with well-typed fields. -/
def convertHeartbeat (src dst : GoMap) : GoMap :=
  match mapGet src (gs "heartbeat") with
  | some (GoVal.obj heartbeat) =>
      let pico : GoMap := [(gs "enabled", GoVal.bool true), (gs "interval", GoVal.num 30)]
      let pico :=
        match mapGet heartbeat (gs "enabled") with
        | some (GoVal.bool b) => mapSet pico (gs "enabled") (GoVal.bool b)
        | _ => pico
      let pico :=
        match mapGet heartbeat (gs "interval") with
        | some (GoVal.num n) => mapSet pico (gs "interval") (GoVal.num n)
        | _ => pico
      mapSet dst (gs "heartbeat") (GoVal.obj pico)
  | _ =>
      mapSet dst (gs "heartbeat")
        (GoVal.obj [(gs "enabled", GoVal.bool true), (gs "interval", GoVal.num 30)])

/-- `convertMCPServers` (config.go:338-350). -/
def convertMCPServers (src dst : GoMap) : GoMap :=
  let mcpServers : List GoVal :=
    match mapGet src (gs "mcp_servers") with
    | some (GoVal.arr s) => s
    | _ =>
        match mapGet src (gs "mcpServers") with
        | some (GoVal.arr s) => s
        | _ => []
  if mcpServers.length > 0 then mapSet dst (gs "mcp_servers") (GoVal.arr mcpServers) else dst

/-- `ConvertConfig` (config.go:10-32): the six sub-conversions applied in
order to a fresh target document. -/
def ConvertConfig (openclawConfig : GoMap) : GoMap :=
  let picoConfig : GoMap := []
  let picoConfig := convertProviders openclawConfig picoConfig
  let picoConfig := convertAgentDefaults openclawConfig picoConfig
  let picoConfig := convertChannels openclawConfig picoConfig
  let picoConfig := convertTools openclawConfig picoConfig
  let picoConfig := convertHeartbeat openclawConfig picoConfig
  let picoConfig := convertMCPServers openclawConfig picoConfig
  picoConfig

/-!
Workspace and config migration (src/internal/migrate/migrate.go).

Filesystem model: a flat map from destination/source paths to file contents
(byte lists), plus a set of paths on which a create/write fails, modelling
injected I/O errors.  Directories are not tracked (`os.MkdirAll` is a no-op
in the model) and `os.Chmod` is dropped (no permission bits).  The source
side of the workspace walk is given as an explicit directory tree — the
result of the `os.ReadDir` calls — whose files carry an optional content;
`none` models a file that vanished between listing and reading, so that
`os.Stat` on it fails.
-/

/-- File contents, as bytes. -/
abbrev Content := List Nat

/-- Filesystem state with an I/O-failure oracle. -/
structure FS where
  files : List (String × Content)
  failWrite : List String

/-- Read a file: `some` iff the path exists. -/
def fsGet (fs : FS) (p : String) : Option Content := mapGet fs.files p

/-- Write a file. -/
def fsSet (fs : FS) (p : String) (c : Content) : FS :=
  { fs with files := mapSet fs.files p c }

/-- Underlying I/O error of a failed copy. -/
inductive IOErr where
  | openFail (path : String) : IOErr
  | writeFail (path : String) : IOErr
deriving DecidableEq, Repr

/-- Error recorded in a migration result. -/
inductive MigErr where
  | copyErr (name : String) (cause : IOErr) : MigErr
  | readConfigErr (path : String) : MigErr
  | writeConfigErr (cause : IOErr) : MigErr
deriving DecidableEq, Repr

/-- `FileResult` (migrate.go:15-24). -/
structure FileResult where
  Source : String := ""
  Dest : String := ""
  Name : String := ""
  Lines : Nat := 0
  Migrated : Bool := false
  Skipped : Bool := false
  BackedUp : Bool := false
  Error : Option MigErr := none
deriving DecidableEq, Repr

/-- `Result` (migrate.go:27-34). -/
structure Result where
  Files : List FileResult := []
  ConfigResult : Option FileResult := none
  TotalFiles : Nat := 0
  Migrated : Nat := 0
  Skipped : Nat := 0
  Errors : Nat := 0
deriving DecidableEq, Repr

/-- `SkipEntries` (migrate.go:37-43). -/
def SkipEntries : List String :=
  [".git", ".openclaw", ".DS_Store", ".gitignore", "sessions"]

/-- Source workspace tree, the shape returned by the `os.ReadDir` walk. -/
inductive Entry where
  | file (name : String) (content : Option Content) : Entry
  | dir (name : String) (entries : List Entry) : Entry

/-- Name of a directory entry. -/
def entryName : Entry → String
  | Entry.file n _ => n
  | Entry.dir n _ => n

/-- `filepath.Join` for the non-empty clean paths used here. -/
def pathJoin (a b : String) : String := a ++ "/" ++ b

/-- Last path segment: `filepath.Base` for the non-empty clean paths used
here. -/
def baseNameChars : List Char → List Char → List Char
  | [], cur => cur
  | c :: cs, cur => if c = '/' then baseNameChars cs [] else baseNameChars cs (cur ++ [c])

/-- `filepath.Base` for the non-empty clean paths used here. -/
def baseName (p : String) : String := String.mk (baseNameChars p.data [])

/-- `len(strings.Split(string(data), "\n"))`: one more than the number of
newline bytes. -/
def countLines (data : Content) : Nat := data.count 10 + 1

/-- `copyFileSafe` (migrate.go:216-234).  The source's readability and bytes
arrive as an optional content (`none`: `os.Open` fails); a destination in the
failure set makes `os.Create`/`io.Copy` fail, leaving the model file
unchanged. -/
def copyFileSafe (fs : FS) (srcPath : String) (srcData : Option Content)
    (dst : String) : FS × Option IOErr :=
  match srcData with
  | none => (fs, some (IOErr.openFail srcPath))
  | some data =>
      if dst ∈ fs.failWrite then (fs, some (IOErr.writeFail dst))
      else (fsSet fs dst data, none)

/-- `migrateFile` (migrate.go:149-187).  `srcContent` stands for the three
source-side reads (`os.Stat`, `os.ReadFile`, `os.Open`): `none` means the
source is missing. -/
def migrateFile (fs : FS) (src dst name : String) (srcContent : Option Content)
    (force : Bool) : FS × FileResult :=
  match srcContent with
  | none => (fs, { Source := src, Dest := dst, Name := name, Skipped := true })
  | some data =>
      let backedUp := (fsGet fs dst).isSome && !force
      let fs1 := if backedUp then (copyFileSafe fs dst (fsGet fs dst) (dst ++ ".bak")).1
                 else fs
      let fr : FileResult := { Source := src, Dest := dst, Name := name,
                               Lines := countLines data, BackedUp := backedUp }
      match copyFileSafe fs1 src (some data) dst with
      | (fs2, some e) => (fs2, { fr with Error := some (MigErr.copyErr name e) })
      | (fs2, none) => (fs2, { fr with Migrated := true })

/-- `migrateDirectory` (migrate.go:189-214): depth-first walk, no skip-set
check, file names reported as `Base(srcDir)/name`. -/
def migrateDirectory : FS → String → String → List Entry → Bool → FS × List FileResult
  | fs, _, _, [], _ => (fs, [])
  | fs, srcDir, dstDir, Entry.dir name subEntries :: rest, force =>
      let head := migrateDirectory fs (pathJoin srcDir name) (pathJoin dstDir name)
        subEntries force
      let tail := migrateDirectory head.1 srcDir dstDir rest force
      (tail.1, head.2 ++ tail.2)
  | fs, srcDir, dstDir, Entry.file name content :: rest, force =>
      let c := migrateFile fs (pathJoin srcDir name) (pathJoin dstDir name)
        (pathJoin (baseName srcDir) name) content force
      let tail := migrateDirectory c.1 srcDir dstDir rest force
      (tail.1, c.2 :: tail.2)
termination_by _ _ _ entries _ => sizeOf entries
decreasing_by
  all_goals simp_wf
  all_goals omega

/-- Result bookkeeping shared by both branches of the `MigrateWorkspace`
loop (migrate.go:74-96): append the record and bump exactly one counter. -/
def tally (r : Result) (fr : FileResult) : Result :=
  let r := { r with Files := r.Files ++ [fr], TotalFiles := r.TotalFiles + 1 }
  if fr.Migrated then { r with Migrated := r.Migrated + 1 }
  else if fr.Skipped then { r with Skipped := r.Skipped + 1 }
  else if fr.Error.isSome then { r with Errors := r.Errors + 1 }
  else r

/-- Per-entry step of the `MigrateWorkspace` loop (migrate.go:59-98), for an
entry that is not in the skip-set. -/
def wsEntryStep (fs : FS) (srcWorkspace dstWorkspace : String) (force : Bool) :
    Entry → FS × List FileResult
  | Entry.dir name subEntries =>
      migrateDirectory fs (pathJoin srcWorkspace name) (pathJoin dstWorkspace name)
        subEntries force
  | Entry.file name content =>
      let c := migrateFile fs (pathJoin srcWorkspace name) (pathJoin dstWorkspace name)
        name content force
      (c.1, [c.2])

/-- The `MigrateWorkspace` entry loop. -/
def wsLoop (fs : FS) (srcWorkspace dstWorkspace : String) (force : Bool)
    (r : Result) : List Entry → FS × Result
  | [] => (fs, r)
  | e :: rest =>
      if entryName e ∈ SkipEntries then wsLoop fs srcWorkspace dstWorkspace force r rest
      else
        let c := wsEntryStep fs srcWorkspace dstWorkspace force e
        wsLoop c.1 srcWorkspace dstWorkspace force (c.2.foldl tally r) rest

/-- `MigrateWorkspace` (migrate.go:47-101), with the `os.ReadDir` listing of
the source workspace given as `entries`. -/
def MigrateWorkspace (fs : FS) (srcWorkspace dstWorkspace : String)
    (entries : List Entry) (force : Bool) : FS × Result :=
  wsLoop fs srcWorkspace dstWorkspace force {} entries

set_option linter.unusedVariables false in
/-- `MigrateConfig` (migrate.go:104-145).  JSON decoding and encoding
(`encoding/json`) are abstracted as the `parse` and `marshal` parameters;
`ReadConfig` fails exactly when the file is missing or `parse` rejects its
bytes.  Note the `force` parameter is never consulted. -/
def MigrateConfig (parse : Content → Option GoMap) (marshal : GoMap → Content)
    (fs : FS) (openclawConfigPath picoConfigPath : String) (force : Bool) :
    FS × FileResult :=
  let fr : FileResult :=
    { Source := openclawConfigPath, Dest := picoConfigPath, Name := "config.json" }
  match (fsGet fs openclawConfigPath).bind parse with
  | none => (fs, { fr with Error := some (MigErr.readConfigErr openclawConfigPath) })
  | some ocConfig =>
      let picoConfig := ConvertConfig ocConfig
      let existingConfig := (fsGet fs picoConfigPath).bind parse
      let picoConfig :=
        match existingConfig with
        | some ex => MergeConfig (some ex) picoConfig
        | none => picoConfig
      let st :=
        if (fsGet fs picoConfigPath).isSome then
          match copyFileSafe fs picoConfigPath (fsGet fs picoConfigPath)
              (picoConfigPath ++ ".bak") with
          | (fs2, none) => (fs2, { fr with BackedUp := true })
          | (fs2, some _) => (fs2, fr)
        else (fs, fr)
      if picoConfigPath ∈ st.1.failWrite then
        (st.1, { st.2 with Error := some (MigErr.writeConfigErr (IOErr.writeFail picoConfigPath)) })
      else (fsSet st.1 picoConfigPath (marshal picoConfig), { st.2 with Migrated := true })

/-!
Heap model of `ConvertConfig` for the no-mutation claim.

The pure embedding above cannot express mutation, so the conversion is
re-translated here with Go's reference semantics made explicit: every
`map[string]interface{}` lives at an address in a heap, `make(map...)` and
map literals allocate, and every Go map write is a heap write.  Slices are
kept immutable (`HVal.arr`) since the code never writes through one.  The
claim is then the frame property: no address that existed before the call —
in particular no map reachable from the source document — is changed.
-/

namespace HeapModel

/-- Heap value: like `GoVal`, but an object is a reference to a heap cell. -/
inductive HVal where
  | null : HVal
  | bool (b : Bool) : HVal
  | num (n : Int) : HVal
  | str (s : GoStr) : HVal
  | arr (xs : List HVal) : HVal
  | ref (a : Nat) : HVal

/-- Contents of one heap cell: a Go map. -/
abbrev HMap := List (GoStr × HVal)

/-- Heap: an allocation counter and the map contents at each address. -/
structure Heap where
  next : Nat
  maps : Nat → HMap

/-- `make(map[string]interface{})` or a map literal: allocate a fresh cell. -/
def alloc (h : Heap) : Heap × Nat :=
  ({ next := h.next + 1,
     maps := fun a => if a = h.next then [] else h.maps a }, h.next)

/-- Go map write `(*a)[k] = v`. -/
def hwrite (h : Heap) (a : Nat) (k : GoStr) (v : HVal) : Heap :=
  { h with maps := fun b => if b = a then mapSet (h.maps b) k v else h.maps b }

/-- Go map read `(*a)[k]` with the comma-ok form. -/
def hread (h : Heap) (a : Nat) (k : GoStr) : Option HVal :=
  mapGet (h.maps a) k

/-- `m[k].(string)` against a heap cell. -/
def hstr (h : Heap) (a : Nat) (k : GoStr) : GoStr :=
  match hread h a k with
  | some (HVal.str s) => s
  | _ => []

/-- `api_key` read of config.go:129-132 against the heap. -/
def hApiKey (h : Heap) (conf : Nat) : GoStr :=
  let k := hstr h conf (gs "api_key")
  if k = [] then hstr h conf (gs "apiKey") else k

/-- `api_base` read of config.go:133-136 against the heap. -/
def hApiBase (h : Heap) (conf : Nat) : GoStr :=
  let b := hstr h conf (gs "api_base")
  if b = [] then hstr h conf (gs "apiBase") else b

/-- Provider-loop body (config.go:123-162): allocate and fill the legacy
record, store it in `picoProviders`, and for a recognized vendor allocate
the `model_list` entry and append its reference to the slice. -/
def provStepM (h : Heap) (pp : Nat) (modelList : List HVal) (name : GoStr) :
    HVal → Heap × List HVal
  | HVal.ref conf =>
      let apiKey := hApiKey h conf
      let apiBase := hApiBase h conf
      let al := alloc h
      let h := al.1
      let picoProvider := al.2
      let h := if apiKey ≠ [] then hwrite h picoProvider (gs "api_key") (HVal.str apiKey) else h
      let h := if apiBase ≠ [] then hwrite h picoProvider (gs "api_base") (HVal.str apiBase) else h
      let h := hwrite h pp name (HVal.ref picoProvider)
      match mapGet vendorMap name with
      | some vendorPre =>
          let al2 := alloc h
          let h := al2.1
          let me := al2.2
          let h := hwrite h me (gs "model_name") (HVal.str name)
          let h := hwrite h me (gs "model") (HVal.str (mapGetD defaultModels vendorPre []))
          let h := if apiKey ≠ [] then hwrite h me (gs "api_key") (HVal.str apiKey) else h
          let h := if apiBase ≠ [] then hwrite h me (gs "api_base") (HVal.str apiBase) else h
          (h, modelList ++ [HVal.ref me])
      | none => (h, modelList)
  | HVal.null => (h, modelList)
  | HVal.bool _ => (h, modelList)
  | HVal.num _ => (h, modelList)
  | HVal.str _ => (h, modelList)
  | HVal.arr _ => (h, modelList)

/-- Provider loop over the entries of the source `providers` cell. -/
def provLoopM (h : Heap) (pp : Nat) (modelList : List HVal) :
    List (GoStr × HVal) → Heap × List HVal
  | [] => (h, modelList)
  | (name, v) :: rest =>
      let st := provStepM h pp modelList name v
      provLoopM st.1 pp st.2 rest

/-- `convertProviders` (config.go:87-170) against the heap. -/
def convertProvidersM (h : Heap) (src dst : Nat) : Heap :=
  match hread h src (gs "providers") with
  | some (HVal.ref pAddr) =>
      let al := alloc h
      let h := al.1
      let pp := al.2
      let st := provLoopM h pp [] (h.maps pAddr)
      let h := st.1
      let h := if st.2.length > 0 then hwrite h dst (gs "model_list") (HVal.arr st.2) else h
      let h := if (h.maps pp).length > 0 then hwrite h dst (gs "providers") (HVal.ref pp) else h
      h
  | _ => h

/-- `agent` / `agents.defaults` section lookup (config.go:173-184) against
the heap: the address of the section's cell. -/
def agentSectionM (h : Heap) (src : Nat) : Option Nat :=
  match hread h src (gs "agent") with
  | some (HVal.ref a) => some a
  | _ =>
      match hread h src (gs "agents") with
      | some (HVal.ref agents) =>
          match hread h agents (gs "defaults") with
          | some (HVal.ref d) => some d
          | _ => none
      | _ => none

/-- First non-empty string among the known model keys (config.go:201-209). -/
def firstModelKeyM (h : Heap) (mo : Nat) : List GoStr → Option GoStr
  | [] => none
  | k :: rest =>
      match hread h mo k with
      | some (HVal.str v) => if v ≠ [] then some v else firstModelKeyM h mo rest
      | _ => firstModelKeyM h mo rest

/-- Field-copy loop of config.go:222-238 against the heap, writing into the
`defaults` cell. -/
def agentFieldLoopM (h : Heap) (defaults agent : Nat) :
    List (GoStr × GoStr) → Heap
  | [] => h
  | (srcKey, dstKey) :: rest =>
      let h : Heap :=
        match hread h agent srcKey with
        | some v =>
            match v with
            | HVal.num n => if n > 0 then hwrite h defaults dstKey v else h
            | HVal.str s => if s ≠ [] then hwrite h defaults dstKey v else h
            | _ => hwrite h defaults dstKey v
        | none => h
      agentFieldLoopM h defaults agent rest

/-- `convertAgentDefaults` (config.go:172-241) against the heap. -/
def convertAgentDefaultsM (h : Heap) (src dst : Nat) : Heap :=
  match agentSectionM h src with
  | none => h
  | some agent =>
      let al := alloc h
      let h := al.1
      let defaults := al.2
      let h := hwrite h defaults (gs "workspace") (HVal.str (gs "~/.picoclaw/workspace"))
      let al2 := alloc h
      let h := al2.1
      let picoAgent := al2.2
      let h := hwrite h picoAgent (gs "defaults") (HVal.ref defaults)
      let h : Heap :=
        match hread h agent (gs "model") with
        | some (HVal.str m) => if m ≠ [] then hwrite h defaults (gs "model") (HVal.str m) else h
        | some (HVal.ref mo) =>
            match firstModelKeyM h mo [gs "primary", gs "name", gs "model", gs "default"] with
            | some v => hwrite h defaults (gs "model") (HVal.str v)
            | none => h
        | _ => h
      let h := agentFieldLoopM h defaults agent agentFieldMap
      hwrite h dst (gs "agents") (HVal.ref picoAgent)

/-- Channel loop of config.go:258-273 against the heap. -/
def chanLoopM (h : Heap) (pc : Nat) : List (GoStr × HVal) → Heap
  | [] => h
  | (name, v) :: rest =>
      if name ∈ supportedChannels then
        match v with
        | HVal.ref chConf =>
            let al := alloc h
            let h := al.1
            let picoChannel := al.2
            let h := (h.maps chConf).foldl
              (fun hh kv => hwrite hh picoChannel (camelToSnake kv.1) kv.2) h
            let h := hwrite h pc name (HVal.ref picoChannel)
            chanLoopM h pc rest
        | HVal.null => chanLoopM h pc rest
        | HVal.bool _ => chanLoopM h pc rest
        | HVal.num _ => chanLoopM h pc rest
        | HVal.str _ => chanLoopM h pc rest
        | HVal.arr _ => chanLoopM h pc rest
      else chanLoopM h pc rest

/-- `convertChannels` (config.go:243-278) against the heap. -/
def convertChannelsM (h : Heap) (src dst : Nat) : Heap :=
  match hread h src (gs "channels") with
  | some (HVal.ref cAddr) =>
      let al := alloc h
      let h := al.1
      let pc := al.2
      let h := chanLoopM h pc (h.maps cAddr)
      if (h.maps pc).length > 0 then hwrite h dst (gs "channels") (HVal.ref pc) else h
  | _ => h

/-- `convertTools` (config.go:280-310) against the heap. -/
def convertToolsM (h : Heap) (src dst : Nat) : Heap :=
  match hread h src (gs "tools") with
  | some (HVal.ref tAddr) =>
      let al := alloc h
      let h := al.1
      let picoTools := al.2
      let h : Heap :=
        match hread h tAddr (gs "web") with
        | some (HVal.ref web) =>
            let al2 := alloc h
            let h := al2.1
            let picoWeb := al2.2
            let h : Heap :=
              match hread h web (gs "brave") with
              | some (HVal.ref brave) => hwrite h picoWeb (gs "brave") (HVal.ref brave)
              | _ => h
            let al3 := alloc h
            let h := al3.1
            let duck := al3.2
            let h := hwrite h duck (gs "enabled") (HVal.bool true)
            let h := hwrite h duck (gs "max_results") (HVal.num 5)
            let h := hwrite h picoWeb (gs "duckduckgo") (HVal.ref duck)
            hwrite h picoTools (gs "web") (HVal.ref picoWeb)
        | _ => h
      let h : Heap :=
        match hread h tAddr (gs "cron") with
        | some (HVal.ref cron) => hwrite h picoTools (gs "cron") (HVal.ref cron)
        | _ => h
      if (h.maps picoTools).length > 0 then hwrite h dst (gs "tools") (HVal.ref picoTools) else h
  | _ => h

/-- `convertHeartbeat` (config.go:312-336) against the heap. -/
def convertHeartbeatM (h : Heap) (src dst : Nat) : Heap :=
  match hread h src (gs "heartbeat") with
  | some (HVal.ref hb) =>
      let al := alloc h
      let h := al.1
      let pico := al.2
      let h := hwrite h pico (gs "enabled") (HVal.bool true)
      let h := hwrite h pico (gs "interval") (HVal.num 30)
      let h : Heap :=
        match hread h hb (gs "enabled") with
        | some (HVal.bool b) => hwrite h pico (gs "enabled") (HVal.bool b)
        | _ => h
      let h : Heap :=
        match hread h hb (gs "interval") with
        | some (HVal.num n) => hwrite h pico (gs "interval") (HVal.num n)
        | _ => h
      hwrite h dst (gs "heartbeat") (HVal.ref pico)
  | _ =>
      let al := alloc h
      let h := al.1
      let pico := al.2
      let h := hwrite h pico (gs "enabled") (HVal.bool true)
      let h := hwrite h pico (gs "interval") (HVal.num 30)
      hwrite h dst (gs "heartbeat") (HVal.ref pico)

/-- `convertMCPServers` (config.go:338-350) against the heap. -/
def convertMCPServersM (h : Heap) (src dst : Nat) : Heap :=
  let mcpServers : List HVal :=
    match hread h src (gs "mcp_servers") with
    | some (HVal.arr s) => s
    | _ =>
        match hread h src (gs "mcpServers") with
        | some (HVal.arr s) => s
        | _ => []
  if mcpServers.length > 0 then hwrite h dst (gs "mcp_servers") (HVal.arr mcpServers) else h

/-- `ConvertConfig` (config.go:10-32) against the heap: allocate the target
document and run the six sub-conversions; returns the heap and the address
of the new document. -/
def ConvertConfigM (h : Heap) (src : Nat) : Heap × Nat :=
  let al := alloc h
  let h := al.1
  let picoConfig := al.2
  let h := convertProvidersM h src picoConfig
  let h := convertAgentDefaultsM h src picoConfig
  let h := convertChannelsM h src picoConfig
  let h := convertToolsM h src picoConfig
  let h := convertHeartbeatM h src picoConfig
  let h := convertMCPServersM h src picoConfig
  (h, picoConfig)

end HeapModel

/-! ### Association-list lemmas -/

theorem mapGet_set_self {κ ν : Type} [DecidableEq κ] (m : List (κ × ν)) (k : κ) (v : ν) :
    mapGet (mapSet m k v) k = some v := by
  induction m with
  | nil => simp [mapGet, mapSet]
  | cons kv rest ih =>
      obtain ⟨k2, v2⟩ := kv
      by_cases h : k2 = k <;> simp [mapGet, mapSet, h, ih]

theorem mapGet_set_other {κ ν : Type} [DecidableEq κ] (m : List (κ × ν)) (k k2 : κ) (v : ν)
    (h : k2 ≠ k) : mapGet (mapSet m k v) k2 = mapGet m k2 := by
  have h2 : ¬ k = k2 := fun he => h he.symm
  induction m with
  | nil => simp [mapGet, mapSet, h2]
  | cons kv rest ih =>
      obtain ⟨k3, v3⟩ := kv
      by_cases h3 : k3 = k
      · subst h3
        rw [mapSet, if_pos rfl, mapGet, mapGet]
        simp [h2]
      · rw [mapSet, if_neg h3, mapGet, mapGet]
        by_cases h4 : k3 = k2 <;> simp [h4, ih]

theorem mapGet_eq_none_iff {κ ν : Type} [DecidableEq κ] (m : List (κ × ν)) (k : κ) :
    mapGet m k = none ↔ k ∉ m.map Prod.fst := by
  induction m with
  | nil => simp [mapGet]
  | cons kv rest ih =>
      obtain ⟨k2, v2⟩ := kv
      by_cases h : k2 = k
      · subst h
        simp [mapGet]
      · have h2 : ¬ k = k2 := fun he => h he.symm
        simp only [mapGet, h, if_false, List.map_cons, List.mem_cons, ih]
        constructor
        · intro hk
          exact fun hc => hc.elim (fun he => h2 he) hk
        · intro hk
          exact fun hc => hk (Or.inr hc)

theorem mapSet_eq_append {κ ν : Type} [DecidableEq κ] (m : List (κ × ν)) (k : κ) (v : ν)
    (h : mapGet m k = none) : mapSet m k v = m ++ [(k, v)] := by
  induction m with
  | nil => simp [mapSet]
  | cons kv rest ih =>
      obtain ⟨k2, v2⟩ := kv
      by_cases h2 : k2 = k
      · rw [mapGet] at h
        simp [h2] at h
      · rw [mapGet] at h
        simp only [h2, if_false] at h
        simp [mapSet, h2, ih h]

theorem keysNodup_cons {κ ν : Type} (k : κ) (v : ν) (rest : List (κ × ν))
    (h : keysNodup ((k, v) :: rest)) :
    k ∉ rest.map Prod.fst ∧ keysNodup rest := by
  have h2 : (k :: rest.map Prod.fst).Nodup := h
  exact List.nodup_cons.mp h2

theorem foldl_mapSet_eq_append {κ ν : Type} [DecidableEq κ] (l : List (κ × ν)) :
    ∀ acc : List (κ × ν), keysNodup l → (∀ k ∈ l.map Prod.fst, mapGet acc k = none) →
      l.foldl (fun a kv => mapSet a kv.1 kv.2) acc = acc ++ l := by
  induction l with
  | nil => simp
  | cons kv rest ih =>
      intro acc hnd hdisj
      obtain ⟨k, v⟩ := kv
      have hacc : mapGet acc k = none := hdisj k (by simp)
      obtain ⟨hk, hnd2⟩ := keysNodup_cons k v rest hnd
      have hdisj2 : ∀ k2 ∈ rest.map Prod.fst, mapGet (acc ++ [(k, v)]) k2 = none := by
        intro k2 hk2
        have hne : ¬ k2 = k := fun he => hk (he ▸ hk2)
        have h1 : mapGet acc k2 = none := hdisj k2 (by simp [hk2])
        rw [mapGet_eq_none_iff] at h1 ⊢
        simp [h1, hne]
      calc List.foldl (fun a kv => mapSet a kv.1 kv.2) acc ((k, v) :: rest)
      _ = List.foldl (fun a kv => mapSet a kv.1 kv.2) (mapSet acc k v) rest := rfl
      _ = List.foldl (fun a kv => mapSet a kv.1 kv.2) (acc ++ [(k, v)]) rest := by
            rw [mapSet_eq_append acc k v hacc]
      _ = acc ++ [(k, v)] ++ rest := ih (acc ++ [(k, v)]) hnd2 hdisj2
      _ = acc ++ ((k, v) :: rest) := by simp

theorem mapCopy_eq_self {κ ν : Type} [DecidableEq κ] (m : List (κ × ν))
    (h : keysNodup m) : mapCopy m = m := by
  have := foldl_mapSet_eq_append m [] h (by intro k _; rfl)
  simpa [mapCopy] using this

/-! ### Merge lemmas (claim C1) -/

theorem mergeConfigVal_eq_mergeVal (m : GoMap) (k : GoStr) (v : GoVal) :
    mergeConfigVal m k v = mergeVal m k v := by
  cases v <;> rw [mergeConfigVal, mergeVal]
  simp only [deepMerge]

theorem mergeVal_congr (m1 m2 : GoMap) (k : GoStr) (v : GoVal)
    (h : mapGet m1 k = mapGet m2 k) : mergeVal m1 k v = mergeVal m2 k v := by
  cases v <;> rw [mergeVal, mergeVal]
  rw [h]

theorem mergeConfigLoop_eq_mergeLoop (l : List (GoStr × GoVal)) :
    ∀ m : GoMap, mergeConfigLoop m l = mergeLoop m l := by
  induction l with
  | nil => intro m; rw [mergeConfigLoop, mergeLoop]
  | cons kv rest ih =>
      intro m
      obtain ⟨k, v⟩ := kv
      rw [mergeConfigLoop, mergeLoop, mergeConfigVal_eq_mergeVal]
      exact ih _

theorem mergeLoop_get_notin (l : List (GoStr × GoVal)) (k : GoStr)
    (hk : k ∉ l.map Prod.fst) : ∀ m : GoMap, mapGet (mergeLoop m l) k = mapGet m k := by
  induction l with
  | nil => intro m; rw [mergeLoop]
  | cons kv rest ih =>
      intro m
      obtain ⟨k2, v2⟩ := kv
      simp only [List.map_cons, List.mem_cons] at hk
      have hne : k ≠ k2 := fun he => hk (Or.inl he)
      have hrest : k ∉ rest.map Prod.fst := fun hc => hk (Or.inr hc)
      rw [mergeLoop, ih hrest]
      exact mapGet_set_other _ _ _ _ hne

theorem mergeLoop_get (l : List (GoStr × GoVal)) (k : GoStr) (v : GoVal)
    (hnd : keysNodup l) (hget : mapGet l k = some v) :
    ∀ m : GoMap, mapGet (mergeLoop m l) k = some (mergeVal m k v) := by
  induction l with
  | nil => exact absurd hget (by rw [mapGet]; simp)
  | cons kv rest ih =>
      intro m
      obtain ⟨k2, v2⟩ := kv
      obtain ⟨hk2, hnd2⟩ := keysNodup_cons k2 v2 rest hnd
      by_cases h2 : k2 = k
      · subst h2
        rw [mapGet, if_pos rfl] at hget
        have hv := Option.some.inj hget
        subst hv
        rw [mergeLoop, mergeLoop_get_notin rest k2 hk2, mapGet_set_self]
      · rw [mapGet, if_neg h2] at hget
        rw [mergeLoop, ih hnd2 hget]
        exact congrArg some
          (mergeVal_congr _ _ _ _
            (mapGet_set_other m k2 k (mergeVal m k2 v2) (fun he => h2 he.symm)))

/-- Existing document of claim C1's concrete instance. -/
def c1existing : GoMap := [(gs "a", GoVal.obj [(gs "x", GoVal.num 1)])]

/-- Incoming document of claim C1's concrete instance. -/
def c1incoming : GoMap :=
  [(gs "a", GoVal.obj [(gs "x", GoVal.num 2), (gs "y", GoVal.num 3)])]

/-- C1, counterexample.  The claim says `Merge({"a":{"x":1}},
{"a":{"x":2,"y":3}})` is `{"a":{"x":1,"y":3}}` (existing leaf wins); the code
returns `{"a":{"x":2,"y":3}}`: `deepMerge` stores the overlay value whenever
the two sides do not both hold maps, so on a shared leaf key the INCOMING
value wins. -/
theorem c1_counterexample :
    MergeConfig (some c1existing) c1incoming
      = [(gs "a", GoVal.obj [(gs "x", GoVal.num 2), (gs "y", GoVal.num 3)])]
    ∧ MergeConfig (some c1existing) c1incoming
      ≠ [(gs "a", GoVal.obj [(gs "x", GoVal.num 1), (gs "y", GoVal.num 3)])] := by
  have heval : MergeConfig (some c1existing) c1incoming
      = [(gs "a", GoVal.obj [(gs "x", GoVal.num 2), (gs "y", GoVal.num 3)])] := by
    simp [MergeConfig, mergeConfigLoop, mergeConfigVal, deepMerge, mergeLoop, mergeVal,
      mapCopy, mapSet, mapGet, c1existing, c1incoming, gs, utf8Bytes]
  refine ⟨heval, ?_⟩
  rw [heval]
  intro h
  simp [gs, utf8Bytes] at h

/-- C1, amended.  `Merge` on the claim's documents returns
`{"a":{"x":2,"y":3}}`; in general, for every key of the incoming document the
merged value is `mergeVal existing k v` (assuming the Go-map invariant of
distinct keys): when both documents hold a nested mapping at the key the
merge recurses via `deepMerge`, and on a leaf key defined by both sides the
INCOMING leaf value wins, incoming-only leaf keys being added. -/
theorem c1_merge_recurses_incoming_leaf_wins :
    (MergeConfig (some c1existing) c1incoming
      = [(gs "a", GoVal.obj [(gs "x", GoVal.num 2), (gs "y", GoVal.num 3)])])
    ∧ (∀ (existing incoming : GoMap) (k : GoStr) (v : GoVal),
        keysNodup existing → keysNodup incoming → mapGet incoming k = some v →
        mapGet (MergeConfig (some existing) incoming) k = some (mergeVal existing k v))
    ∧ (∀ (m : GoMap) (k : GoStr) (em im : GoMap), mapGet m k = some (GoVal.obj em) →
        mergeVal m k (GoVal.obj im) = GoVal.obj (deepMerge em im))
    ∧ (∀ (m : GoMap) (k : GoStr) (n : Int), mergeVal m k (GoVal.num n) = GoVal.num n) := by
  refine ⟨?_, ?_, ?_, ?_⟩
  · simp [MergeConfig, mergeConfigLoop, mergeConfigVal, deepMerge, mergeLoop, mergeVal,
      mapCopy, mapSet, mapGet, c1existing, c1incoming, gs, utf8Bytes]
  · intro existing incoming k v hndE hndI hget
    rw [MergeConfig, mapCopy_eq_self existing hndE, mergeConfigLoop_eq_mergeLoop]
    exact mergeLoop_get incoming k v hndI hget existing
  · intro m k em im h
    rw [mergeVal, h]
    rw [deepMerge]
  · intro m k n
    rw [mergeVal]

/-- Closed instance of the quantified parts of
`c1_merge_recurses_incoming_leaf_wins`. -/
theorem c1_merge_recurses_incoming_leaf_wins_witness :
    (mapGet (MergeConfig (some c1existing) c1incoming) (gs "a")
      = some (mergeVal c1existing (gs "a")
          (GoVal.obj [(gs "x", GoVal.num 2), (gs "y", GoVal.num 3)])))
    ∧ (mergeVal c1existing (gs "a")
        (GoVal.obj [(gs "x", GoVal.num 2), (gs "y", GoVal.num 3)])
      = GoVal.obj (deepMerge [(gs "x", GoVal.num 1)]
          [(gs "x", GoVal.num 2), (gs "y", GoVal.num 3)]))
    ∧ mergeVal [] (gs "x") (GoVal.num 5) = GoVal.num 5 :=
  ⟨c1_merge_recurses_incoming_leaf_wins.2.1 c1existing c1incoming (gs "a")
      (GoVal.obj [(gs "x", GoVal.num 2), (gs "y", GoVal.num 3)])
      (by decide) (by decide) rfl,
   c1_merge_recurses_incoming_leaf_wins.2.2.1 c1existing (gs "a")
      [(gs "x", GoVal.num 1)] [(gs "x", GoVal.num 2), (gs "y", GoVal.num 3)] rfl,
   c1_merge_recurses_incoming_leaf_wins.2.2.2 [] (gs "x") 5⟩

/-! ### camelCase → snake_case lemmas (claim C7) -/

/-- Every byte is ASCII. -/
def isAscii (s : GoStr) : Prop := ∀ b ∈ s, b < 128

instance (s : GoStr) : Decidable (isAscii s) := by
  unfold isAscii; infer_instance

/-- No byte is an ASCII uppercase letter. -/
def hasNoUpper (s : GoStr) : Prop := ∀ b ∈ s, ¬(65 ≤ b ∧ b ≤ 90)

instance (s : GoStr) : Decidable (hasNoUpper s) := by
  unfold hasNoUpper; infer_instance

/-- Modelled from the spec's words for comparison with `camelToSnake`: walk
the characters, insert `_` before each uppercase letter that is not at
position 0 and lowercase it, keep every other character. -/
def camelToSnakeSpec : List Nat → Bool → List Nat
  | [], _ => []
  | b :: bs, atStart =>
      (if 65 ≤ b && b ≤ 90 then (if atStart then [] else [95]) ++ [b + 32] else [b])
        ++ camelToSnakeSpec bs false

theorem decodeRune_ascii (b : Nat) (bs : List Nat) (hb : b < 128) :
    decodeRune b bs = (b, 0) := by
  rw [decodeRune, if_pos hb]

theorem camelToSnakeAux_ascii_spec (s : GoStr) (h : isAscii s) :
    ∀ i : Nat, camelToSnakeAux s i = camelToSnakeSpec s (i == 0) := by
  induction s with
  | nil => intro i; rw [camelToSnakeAux, camelToSnakeSpec]
  | cons b bs ih =>
      intro i
      have hb : b < 128 := h b (by simp)
      have hbs : isAscii bs := fun x hx => h x (by simp [hx])
      rw [camelToSnakeAux, camelToSnakeSpec]
      rw [decodeRune_ascii b bs hb]
      simp only [List.drop_zero]
      rw [ih hbs (i + 1 + 0)]
      have h10 : ((i + 1 + 0 == 0) = false) := by simp
      rw [h10]
      by_cases hc : (65 ≤ b && b ≤ 90) = true
      · have hub : b ≤ 90 := by simp at hc; omega
        rw [if_pos hc, if_pos hc]
        have : (b + 32) % 256 = b + 32 := Nat.mod_eq_of_lt (by omega)
        rw [this]
        by_cases hi : i = 0
        · subst hi; simp
        · have : (i == 0) = false := by simp [hi]
          rw [this]
          simp only [if_neg, Bool.false_eq_true, not_false_iff]
          have hgt : i > 0 := Nat.pos_of_ne_zero hi
          simp [hgt]
      · rw [if_neg hc, if_neg hc]
        have : b % 256 = b := Nat.mod_eq_of_lt (by omega)
        rw [this]

theorem camelToSnakeAux_output_ascii_noupper (s : GoStr) (h : isAscii s) :
    ∀ i : Nat, isAscii (camelToSnakeAux s i) ∧ hasNoUpper (camelToSnakeAux s i) := by
  induction s with
  | nil =>
      intro i
      rw [camelToSnakeAux]
      exact ⟨by intro b hb; simp at hb, by intro b hb; simp at hb⟩
  | cons b bs ih =>
      intro i
      have hb : b < 128 := h b (by simp)
      have hbs : isAscii bs := fun x hx => h x (by simp [hx])
      obtain ⟨iha, ihn⟩ := ih hbs (i + 1 + 0)
      rw [camelToSnakeAux]
      rw [decodeRune_ascii b bs hb]
      simp only [List.drop_zero]
      constructor
      · intro x hx
        simp only [List.mem_append] at hx
        rcases hx with hx | hx
        · by_cases hc : (65 ≤ b && b ≤ 90) = true
          · rw [if_pos hc] at hx
            simp at hc
            simp at hx
            rcases hx with hx | hx
            · rcases hx with ⟨_, hx⟩ | hx
              · omega
              · have : (b + 32) % 256 = b + 32 := Nat.mod_eq_of_lt (by omega)
                omega
            · have : (b + 32) % 256 = b + 32 := Nat.mod_eq_of_lt (by omega)
              omega
          · rw [if_neg hc] at hx
            simp at hx
            have : b % 256 = b := Nat.mod_eq_of_lt (by omega)
            omega
        · exact iha x hx
      · intro x hx
        simp only [List.mem_append] at hx
        rcases hx with hx | hx
        · by_cases hc : (65 ≤ b && b ≤ 90) = true
          · rw [if_pos hc] at hx
            simp at hc
            have hm : (b + 32) % 256 = b + 32 := Nat.mod_eq_of_lt (by omega)
            simp at hx
            rcases hx with hx | hx
            · rcases hx with ⟨_, hx⟩ | hx
              · omega
              · omega
            · omega
          · rw [if_neg hc] at hx
            simp at hc
            simp at hx
            have : b % 256 = b := Nat.mod_eq_of_lt (by omega)
            omega
        · exact ihn x hx

theorem camelToSnakeAux_noupper_id (s : GoStr) (ha : isAscii s) (hn : hasNoUpper s) :
    ∀ i : Nat, camelToSnakeAux s i = s := by
  induction s with
  | nil => intro i; rw [camelToSnakeAux]
  | cons b bs ih =>
      intro i
      have hb : b < 128 := ha b (by simp)
      have hbu : ¬(65 ≤ b ∧ b ≤ 90) := hn b (by simp)
      have hbs : isAscii bs := fun x hx => ha x (by simp [hx])
      have hbsn : hasNoUpper bs := fun x hx => hn x (by simp [hx])
      rw [camelToSnakeAux]
      rw [decodeRune_ascii b bs hb]
      simp only [List.drop_zero]
      have hc : (65 ≤ b && b ≤ 90) = false := by
        simp only [Bool.and_eq_false_iff]
        by_cases h1 : 65 ≤ b
        · exact Or.inr (by simp; omega)
        · exact Or.inl (by simp at h1 ⊢; omega)
      rw [if_neg (by simp [hc])]
      rw [Nat.mod_eq_of_lt (by omega), ih hbs hbsn (i + 1 + 0)]
      rfl

/-- C7, counterexample.  `camelToSnake` is not idempotent on every Go string:
on the two-byte UTF-8 string "Ł" (U+0141, bytes `[197, 129]`) the rune is
truncated to the byte 0x41 = `A`, so one application yields `"A"` and a
second application yields `"a"`.  Likewise a key with no uppercase letter is
not always returned unchanged: lowercase "é" (bytes `[195, 169]`) becomes the
single byte `[233]`. -/
theorem c7_counterexample :
    camelToSnake [197, 129] = [65]
    ∧ camelToSnake (camelToSnake [197, 129]) = [97]
    ∧ camelToSnake (camelToSnake [197, 129]) ≠ camelToSnake [197, 129]
    ∧ camelToSnake [195, 169] ≠ [195, 169] := by
  have h1 : camelToSnake [197, 129] = [65] := by
    simp [camelToSnake, camelToSnakeAux, decodeRune, isCont]
  have h2 : camelToSnake [65] = [97] := by
    simp [camelToSnake, camelToSnakeAux, decodeRune, isCont]
  have h3 : camelToSnake [195, 169] = [233] := by
    simp [camelToSnake, camelToSnakeAux, decodeRune, isCont]
  refine ⟨h1, by rw [h1]; exact h2, ?_, ?_⟩
  · rw [h1, h2]
    simp
  · rw [h3]
    simp

/-- C7, amended.  Restricted to ASCII inputs the claim holds: `camelToSnake`
is total (it is a function of this development) and idempotent, it rewrites
keys exactly as the spec's per-character rule `camelToSnakeSpec` describes
(`_` inserted before each uppercase letter not at position 0, which is then
lowercased), `"apiKey"` maps to `"api_key"`, and a key with no uppercase
letter is returned unchanged.  On non-ASCII input the function is still
total but the last three properties fail (`c7_counterexample`). -/
theorem c7_camel_to_snake_ascii :
    (∀ s : GoStr, isAscii s → camelToSnake (camelToSnake s) = camelToSnake s)
    ∧ camelToSnake (gs "apiKey") = gs "api_key"
    ∧ (∀ s : GoStr, isAscii s → camelToSnake s = camelToSnakeSpec s true)
    ∧ (∀ s : GoStr, isAscii s → hasNoUpper s → camelToSnake s = s) := by
  refine ⟨?_, ?_, ?_, ?_⟩
  · intro s h
    obtain ⟨ha, hn⟩ := camelToSnakeAux_output_ascii_noupper s h 0
    exact camelToSnakeAux_noupper_id (camelToSnakeAux s 0) ha hn 0
  · simp [camelToSnake, camelToSnakeAux, decodeRune, isCont, gs, utf8Bytes]
  · intro s h
    rw [camelToSnake, camelToSnakeAux_ascii_spec s h 0]
    rfl
  · intro s ha hn
    exact camelToSnakeAux_noupper_id s ha hn 0

/-- Closed instance of `c7_camel_to_snake_ascii`'s quantified parts. -/
theorem c7_camel_to_snake_ascii_witness :
    camelToSnake (camelToSnake (gs "botToken")) = camelToSnake (gs "botToken")
    ∧ camelToSnake (gs "botToken") = camelToSnakeSpec (gs "botToken") true
    ∧ camelToSnake (gs "enabled") = gs "enabled" :=
  ⟨c7_camel_to_snake_ascii.1 (gs "botToken") (by decide),
   c7_camel_to_snake_ascii.2.2.1 (gs "botToken") (by decide),
   c7_camel_to_snake_ascii.2.2.2 (gs "enabled") (by decide) (by decide)⟩

/-- Source document of claim C6's end-to-end scenario. -/
def c6src : GoMap :=
  [(gs "providers", GoVal.obj
      [(gs "anthropic", GoVal.obj [(gs "apiKey", GoVal.str (gs "sk-1"))])]),
   (gs "agent", GoVal.obj
      [(gs "model", GoVal.str (gs "anthropic/claude-x")),
       (gs "maxTokens", GoVal.num 8192)]),
   (gs "channels", GoVal.obj
      [(gs "telegram", GoVal.obj
          [(gs "enabled", GoVal.bool true), (gs "botToken", GoVal.str (gs "t"))]),
       (gs "whatsapp", GoVal.obj [(gs "enabled", GoVal.bool true)])])]

/-- C6 (confirmed).  Converting the scenario document yields a document whose
`model_list` is exactly one entry `{model_name: "anthropic", model:
"anthropic/claude-sonnet-4.6", api_key: "sk-1"}`, whose `agents.defaults`
holds the target workspace root, the verbatim model string and `max_tokens =
8192`, whose `channels` holds ONLY `telegram` with `{enabled: true,
bot_token: "t"}` (whatsapp dropped), and whose `heartbeat` is the default
`{enabled: true, interval: 30}`. -/
theorem c6_convert_scenario :
    mapGet (ConvertConfig c6src) (gs "model_list")
      = some (GoVal.arr [GoVal.obj
          [(gs "model_name", GoVal.str (gs "anthropic")),
           (gs "model", GoVal.str (gs "anthropic/claude-sonnet-4.6")),
           (gs "api_key", GoVal.str (gs "sk-1"))]])
    ∧ mapGet (ConvertConfig c6src) (gs "agents")
      = some (GoVal.obj [(gs "defaults", GoVal.obj
          [(gs "workspace", GoVal.str (gs "~/.picoclaw/workspace")),
           (gs "model", GoVal.str (gs "anthropic/claude-x")),
           (gs "max_tokens", GoVal.num 8192)])])
    ∧ mapGet (ConvertConfig c6src) (gs "channels")
      = some (GoVal.obj [(gs "telegram", GoVal.obj
          [(gs "enabled", GoVal.bool true), (gs "bot_token", GoVal.str (gs "t"))])])
    ∧ mapGet (ConvertConfig c6src) (gs "heartbeat")
      = some (GoVal.obj
          [(gs "enabled", GoVal.bool true), (gs "interval", GoVal.num 30)]) := by
  refine ⟨?_, ?_, ?_, ?_⟩ <;>
    simp [ConvertConfig, convertProviders, convertAgentDefaults, convertChannels,
      convertTools, convertHeartbeat, convertMCPServers, provLoop, provStep, provRecord,
      modelEntry, apiKeyOf, apiBaseOf, asString, vendorMap, defaultModels, agentSection,
      firstModelKey, agentFieldMap, agentFieldLoop, supportedChannels, chanFields,
      chanLoop, camelToSnake, camelToSnakeAux, decodeRune, isCont, mapCopy, mapSet,
      mapGet, mapGetD, c6src, gs, utf8Bytes]

/-! ### Converter frame lemmas: each sub-conversion writes only its own key -/

theorem convertAgentDefaults_get_other (src dst : GoMap) (k : GoStr)
    (h : k ≠ gs "agents") : mapGet (convertAgentDefaults src dst) k = mapGet dst k := by
  rw [convertAgentDefaults]
  split
  · rfl
  · exact mapGet_set_other _ _ _ _ h

theorem convertChannels_get_other (src dst : GoMap) (k : GoStr)
    (h : k ≠ gs "channels") : mapGet (convertChannels src dst) k = mapGet dst k := by
  rw [convertChannels]
  split
  · dsimp only
    split
    · exact mapGet_set_other _ _ _ _ h
    · rfl
  · rfl

theorem convertTools_get_other (src dst : GoMap) (k : GoStr)
    (h : k ≠ gs "tools") : mapGet (convertTools src dst) k = mapGet dst k := by
  rw [convertTools]
  split
  · dsimp only
    split
    · exact mapGet_set_other _ _ _ _ h
    · rfl
  · rfl

theorem convertHeartbeat_get_other (src dst : GoMap) (k : GoStr)
    (h : k ≠ gs "heartbeat") : mapGet (convertHeartbeat src dst) k = mapGet dst k := by
  rw [convertHeartbeat]
  split
  · exact mapGet_set_other _ _ _ _ h
  · exact mapGet_set_other _ _ _ _ h

theorem convertMCPServers_get_other (src dst : GoMap) (k : GoStr)
    (h : k ≠ gs "mcp_servers") : mapGet (convertMCPServers src dst) k = mapGet dst k := by
  rw [convertMCPServers]
  split
  · exact mapGet_set_other _ _ _ _ h
  · rfl

/-- Lookup in the converted document at `model_list` or `providers` reduces
to lookup in what `convertProviders` produced. -/
theorem convertConfig_get_providers_keys (src : GoMap) (k : GoStr)
    (h1 : k ≠ gs "agents") (h2 : k ≠ gs "channels") (h3 : k ≠ gs "tools")
    (h4 : k ≠ gs "heartbeat") (h5 : k ≠ gs "mcp_servers") :
    mapGet (ConvertConfig src) k = mapGet (convertProviders src []) k := by
  rw [ConvertConfig, convertMCPServers_get_other _ _ _ h5,
    convertHeartbeat_get_other _ _ _ h4, convertTools_get_other _ _ _ h3,
    convertChannels_get_other _ _ _ h2, convertAgentDefaults_get_other _ _ _ h1]

/-! ### Provider-loop lemmas (claims C4 and C5) -/

theorem provLoop_providers_get_notin (l : List (GoStr × GoVal)) (name : GoStr)
    (hname : name ∉ l.map Prod.fst) :
    ∀ acc : List GoMap × GoMap, mapGet (provLoop acc l).2 name = mapGet acc.2 name := by
  induction l with
  | nil => intro acc; rfl
  | cons kv rest ih =>
      intro acc
      obtain ⟨n0, v0⟩ := kv
      simp only [List.map_cons, List.mem_cons] at hname
      have hne : name ≠ n0 := fun he => hname (Or.inl he)
      have hrest : name ∉ rest.map Prod.fst := fun hc => hname (Or.inr hc)
      rw [provLoop, ih hrest]
      cases v0 with
      | obj conf =>
          rw [provStep]
          cases hv : mapGet vendorMap n0 <;>
            simp only [hv] <;> exact mapGet_set_other _ _ _ _ hne
      | null => rw [provStep]
      | bool b => rw [provStep]
      | num n => rw [provStep]
      | str s2 => rw [provStep]
      | arr xs => rw [provStep]

theorem provLoop_providers_get (l : List (GoStr × GoVal)) (name : GoStr) (conf : GoMap)
    (hnd : keysNodup l) (hget : mapGet l name = some (GoVal.obj conf)) :
    ∀ acc : List GoMap × GoMap,
      mapGet (provLoop acc l).2 name = some (GoVal.obj (provRecord conf)) := by
  induction l with
  | nil => exact absurd hget (by rw [mapGet]; simp)
  | cons kv rest ih =>
      intro acc
      obtain ⟨n0, v0⟩ := kv
      obtain ⟨hk0, hnd2⟩ := keysNodup_cons n0 v0 rest hnd
      by_cases h0 : n0 = name
      · subst h0
        rw [mapGet, if_pos rfl] at hget
        have hv := Option.some.inj hget
        subst hv
        rw [provLoop, provLoop_providers_get_notin rest n0 hk0]
        rw [provStep]
        cases hvend : mapGet vendorMap n0 <;>
          simp only [hvend] <;> exact mapGet_set_self _ _ _
      · rw [mapGet, if_neg h0] at hget
        rw [provLoop]
        exact ih hnd2 hget _

/-- `model_list` entries contributed by a provider list: one entry per
object-valued binding whose name has a vendor mapping. -/
def provModelEntries (l : List (GoStr × GoVal)) : List GoMap :=
  l.filterMap (fun kv =>
    match kv.2, mapGet vendorMap kv.1 with
    | GoVal.obj conf, some vp => some (modelEntry kv.1 vp conf)
    | _, _ => none)

theorem provLoop_modelList (l : List (GoStr × GoVal)) :
    ∀ acc : List GoMap × GoMap, (provLoop acc l).1 = acc.1 ++ provModelEntries l := by
  induction l with
  | nil => intro acc; simp [provLoop, provModelEntries]
  | cons kv rest ih =>
      intro acc
      obtain ⟨n0, v0⟩ := kv
      rw [provLoop, ih]
      simp only [provModelEntries, List.filterMap_cons]
      cases v0 with
      | obj conf =>
          rw [provStep]
          cases hvend : mapGet vendorMap n0 with
          | none => simp [hvend]
          | some vp => simp [hvend]
      | null => rw [provStep]
      | bool b => rw [provStep]
      | num n => rw [provStep]
      | str s2 => rw [provStep]
      | arr xs => rw [provStep]

theorem provModelEntries_mem (l : List (GoStr × GoVal)) (name : GoStr) (conf : GoMap)
    (vp : GoStr) (hget : mapGet l name = some (GoVal.obj conf))
    (hv : mapGet vendorMap name = some vp) :
    modelEntry name vp conf ∈ provModelEntries l := by
  induction l with
  | nil => exact absurd hget (by rw [mapGet]; simp)
  | cons kv rest ih =>
      obtain ⟨n0, v0⟩ := kv
      rw [provModelEntries, List.filterMap_cons]
      by_cases h0 : n0 = name
      · subst h0
        rw [mapGet, if_pos rfl] at hget
        have hveq := Option.some.inj hget
        subst hveq
        simp only [hv]
        simp
      · rw [mapGet, if_neg h0] at hget
        have hmem := ih hget
        rw [provModelEntries] at hmem
        cases hf : (match (n0, v0).2, mapGet vendorMap (n0, v0).1 with
          | GoVal.obj conf, some vp => some (modelEntry (n0, v0).1 vp conf)
          | _, _ => none) with
        | none => simpa [hf] using hmem
        | some e => simp [hf, hmem]

theorem provModelEntries_sound (l : List (GoStr × GoVal)) (e : GoMap)
    (he : e ∈ provModelEntries l) :
    ∃ (n : GoStr) (c : GoMap) (vp : GoStr),
      (n, GoVal.obj c) ∈ l ∧ mapGet vendorMap n = some vp ∧ e = modelEntry n vp c := by
  rw [provModelEntries] at he
  rw [List.mem_filterMap] at he
  obtain ⟨⟨n, v⟩, hmem, hf⟩ := he
  cases v with
  | obj c =>
      cases hv : mapGet vendorMap n with
      | none => rw [show ((n, GoVal.obj c) : GoStr × GoVal).2 = GoVal.obj c from rfl] at hf
                simp [hv] at hf
      | some vp =>
          refine ⟨n, c, vp, hmem, hv, ?_⟩
          simp [hv] at hf
          exact hf.symm
  | null => simp at hf
  | bool b => simp at hf
  | num n2 => simp at hf
  | str s2 => simp at hf
  | arr xs => simp at hf

theorem provLoop_no_obj (l : List (GoStr × GoVal))
    (h : ∀ kv ∈ l, ∀ c : GoMap, kv.2 ≠ GoVal.obj c) :
    ∀ acc : List GoMap × GoMap, provLoop acc l = acc := by
  induction l with
  | nil => intro acc; rfl
  | cons kv rest ih =>
      intro acc
      obtain ⟨n0, v0⟩ := kv
      have hrest : ∀ kv ∈ rest, ∀ c : GoMap, kv.2 ≠ GoVal.obj c :=
        fun kv hkv => h kv (by simp [hkv])
      rw [provLoop]
      cases v0 with
      | obj c => exact absurd rfl (h (n0, GoVal.obj c) (by simp) c)
      | null => rw [provStep]; exact ih hrest acc
      | bool b => rw [provStep]; exact ih hrest acc
      | num n => rw [provStep]; exact ih hrest acc
      | str s2 => rw [provStep]; exact ih hrest acc
      | arr xs => rw [provStep]; exact ih hrest acc

theorem convertProviders_providers_get_pos (src dst : GoMap) (providers : GoMap)
    (hm : mapGet src (gs "providers") = some (GoVal.obj providers))
    (h2 : (provLoop ([], []) providers).2.length > 0) :
    mapGet (convertProviders src dst) (gs "providers")
      = some (GoVal.obj (provLoop ([], []) providers).2) := by
  rw [convertProviders]
  simp only [hm, if_pos h2]
  exact mapGet_set_self _ _ _

theorem convertProviders_providers_get_neg (src dst : GoMap) (providers : GoMap)
    (hm : mapGet src (gs "providers") = some (GoVal.obj providers))
    (h2 : ¬ (provLoop ([], []) providers).2.length > 0) :
    mapGet (convertProviders src dst) (gs "providers")
      = mapGet dst (gs "providers") := by
  rw [convertProviders]
  simp only [hm, if_neg h2]
  by_cases h1 : (provLoop ([], []) providers).1.length > 0
  · simp only [if_pos h1]
    exact mapGet_set_other _ _ _ _ (by decide)
  · simp only [if_neg h1]

theorem convertProviders_modelList_get_pos (src dst : GoMap) (providers : GoMap)
    (hm : mapGet src (gs "providers") = some (GoVal.obj providers))
    (h1 : (provLoop ([], []) providers).1.length > 0) :
    mapGet (convertProviders src dst) (gs "model_list")
      = some (GoVal.arr ((provLoop ([], []) providers).1.map GoVal.obj)) := by
  rw [convertProviders]
  simp only [hm, if_pos h1]
  by_cases h2 : (provLoop ([], []) providers).2.length > 0
  · simp only [if_pos h2]
    rw [mapGet_set_other _ _ _ _ (by decide)]
    exact mapGet_set_self _ _ _
  · simp only [if_neg h2]
    exact mapGet_set_self _ _ _

theorem convertProviders_modelList_get_neg (src dst : GoMap) (providers : GoMap)
    (hm : mapGet src (gs "providers") = some (GoVal.obj providers))
    (h1 : ¬ (provLoop ([], []) providers).1.length > 0) :
    mapGet (convertProviders src dst) (gs "model_list")
      = mapGet dst (gs "model_list") := by
  rw [convertProviders]
  simp only [hm, if_neg h1]
  by_cases h2 : (provLoop ([], []) providers).2.length > 0
  · simp only [if_pos h2]
    exact mapGet_set_other _ _ _ _ (by decide)
  · simp only [if_neg h2]

theorem mapGet_some_pos {κ ν : Type} [DecidableEq κ] (m : List (κ × ν)) (k : κ) (v : ν)
    (h : mapGet m k = some v) : 0 < m.length := by
  cases m with
  | nil => exact absurd h (by rw [mapGet]; simp)
  | cons kv rest => simp

theorem modelEntry_get_names (name vp : GoStr) (conf : GoMap) :
    mapGet (modelEntry name vp conf) (gs "model_name") = some (GoVal.str name)
    ∧ mapGet (modelEntry name vp conf) (gs "model")
        = some (GoVal.str (mapGetD defaultModels vp [])) := by
  by_cases hk : apiKeyOf conf ≠ [] <;> by_cases hb : apiBaseOf conf ≠ [] <;>
    simp [modelEntry, hk, hb, mapSet, mapGet, gs, utf8Bytes]

/-- Source document of claim C4's counterexample: one provider whose object
has neither credential field. -/
def c4src : GoMap := [(gs "providers", GoVal.obj [(gs "p", GoVal.obj [])])]

/-- C4, counterexample.  The claim says a legacy `providers[name]` record is
emitted EXACTLY when `api_key` or `api_base` is non-empty, and that the
output `providers` key is omitted when no record was produced.  The code
(config.go:139-146) stores `picoProviders[name]` unconditionally for every
object-valued provider, so a provider with no credentials still yields an
empty record and a `providers` key. -/
theorem c4_counterexample :
    mapGet (ConvertConfig c4src) (gs "providers")
      = some (GoVal.obj [(gs "p", GoVal.obj [])])
    ∧ mapGet (ConvertConfig c4src) (gs "providers") ≠ none := by
  have heval : mapGet (ConvertConfig c4src) (gs "providers")
      = some (GoVal.obj [(gs "p", GoVal.obj [])]) := by
    simp [ConvertConfig, convertProviders, convertAgentDefaults, convertChannels,
      convertTools, convertHeartbeat, convertMCPServers, provLoop, provStep, provRecord,
      modelEntry, apiKeyOf, apiBaseOf, asString, vendorMap, defaultModels, agentSection,
      firstModelKey, agentFieldMap, agentFieldLoop, supportedChannels, chanFields,
      chanLoop, camelToSnake, camelToSnakeAux, decodeRune, isCont, mapCopy, mapSet,
      mapGet, mapGetD, c4src, gs, utf8Bytes]
  exact ⟨heval, by rw [heval]; simp⟩

/-- C4, amended.  For every object-valued entry of the source `providers`
mapping a legacy record is emitted — unconditionally, empty when both
credential fields are empty — containing exactly the non-empty fields among
`api_key` and `api_base`; the output `providers` key is omitted exactly when
the source section holds no object-valued entry at all. -/
theorem c4_providers_records :
    (∀ (src providers : GoMap) (name : GoStr) (conf : GoMap),
       mapGet src (gs "providers") = some (GoVal.obj providers) →
       keysNodup providers →
       mapGet providers name = some (GoVal.obj conf) →
       ∃ pp : GoMap,
         mapGet (ConvertConfig src) (gs "providers") = some (GoVal.obj pp)
         ∧ mapGet pp name = some (GoVal.obj (provRecord conf)))
    ∧ (∀ conf : GoMap,
        mapGet (provRecord conf) (gs "api_key")
          = (if apiKeyOf conf ≠ [] then some (GoVal.str (apiKeyOf conf)) else none)
        ∧ mapGet (provRecord conf) (gs "api_base")
          = (if apiBaseOf conf ≠ [] then some (GoVal.str (apiBaseOf conf)) else none)
        ∧ (provRecord conf).map Prod.fst ⊆ [gs "api_key", gs "api_base"])
    ∧ (∀ (src providers : GoMap),
       mapGet src (gs "providers") = some (GoVal.obj providers) →
       (∀ kv ∈ providers, ∀ c : GoMap, kv.2 ≠ GoVal.obj c) →
       mapGet (ConvertConfig src) (gs "providers") = none) := by
  refine ⟨?_, ?_, ?_⟩
  · intro src providers name conf hm hnd hget
    have hpp := provLoop_providers_get providers name conf hnd hget ([], [])
    have hlen : 0 < (provLoop ([], []) providers).2.length :=
      mapGet_some_pos _ _ _ hpp
    refine ⟨(provLoop ([], []) providers).2, ?_, hpp⟩
    rw [convertConfig_get_providers_keys src (gs "providers") (by decide) (by decide)
      (by decide) (by decide) (by decide)]
    exact convertProviders_providers_get_pos src [] providers hm hlen
  · intro conf
    refine ⟨?_, ?_, ?_⟩ <;>
      (by_cases hk : apiKeyOf conf ≠ [] <;> by_cases hb : apiBaseOf conf ≠ [] <;>
        simp [provRecord, hk, hb, mapSet, mapGet, gs, utf8Bytes])
  · intro src providers hm hno
    have hz := provLoop_no_obj providers hno ([], [])
    rw [convertConfig_get_providers_keys src (gs "providers") (by decide) (by decide)
      (by decide) (by decide) (by decide)]
    rw [convertProviders_providers_get_neg src [] providers hm (by rw [hz]; simp)]
    rfl

/-- Closed instance of `c4_providers_records`. -/
theorem c4_providers_records_witness :
    (∃ pp : GoMap,
      mapGet (ConvertConfig c4src) (gs "providers") = some (GoVal.obj pp)
      ∧ mapGet pp (gs "p") = some (GoVal.obj (provRecord [])))
    ∧ mapGet (ConvertConfig [(gs "providers", GoVal.obj [(gs "q", GoVal.str (gs "x"))])])
        (gs "providers") = none :=
  ⟨c4_providers_records.1 c4src [(gs "p", GoVal.obj [])] (gs "p") []
      rfl (by decide) rfl,
   c4_providers_records.2.2 [(gs "providers", GoVal.obj [(gs "q", GoVal.str (gs "x"))])]
      [(gs "q", GoVal.str (gs "x"))] rfl
      (by intro kv hkv c; simp at hkv; rw [hkv]; simp)⟩

/-- C5 (confirmed).  For every object-valued provider entry whose name is a
recognized vendor identifier, `model_list` contains the entry built from the
source provider name — `model_name` is the provider name itself and `model`
is the vendor's fixed default model string, with credentials only when
non-empty (see `modelEntry`); conversely every `model_list` element comes
from an object-valued provider entry whose name has a vendor mapping, so
unrecognized provider names never appear. -/
theorem c5_model_list_entries :
    (∀ (src providers : GoMap) (name : GoStr) (conf : GoMap) (vp : GoStr),
       mapGet src (gs "providers") = some (GoVal.obj providers) →
       mapGet providers name = some (GoVal.obj conf) →
       mapGet vendorMap name = some vp →
       ∃ ml : List GoMap,
         mapGet (ConvertConfig src) (gs "model_list")
           = some (GoVal.arr (ml.map GoVal.obj))
         ∧ modelEntry name vp conf ∈ ml
         ∧ mapGet (modelEntry name vp conf) (gs "model_name") = some (GoVal.str name)
         ∧ mapGet (modelEntry name vp conf) (gs "model")
             = some (GoVal.str (mapGetD defaultModels vp [])))
    ∧ (∀ (src providers : GoMap) (ml : List GoVal),
       mapGet src (gs "providers") = some (GoVal.obj providers) →
       mapGet (ConvertConfig src) (gs "model_list") = some (GoVal.arr ml) →
       ∀ e ∈ ml, ∃ (n : GoStr) (c : GoMap) (vp : GoStr),
         (n, GoVal.obj c) ∈ providers ∧ mapGet vendorMap n = some vp
         ∧ e = GoVal.obj (modelEntry n vp c)) := by
  constructor
  · intro src providers name conf vp hm hget hv
    have hmem := provModelEntries_mem providers name conf vp hget hv
    have hml : (provLoop ([], []) providers).1 = provModelEntries providers := by
      rw [provLoop_modelList providers ([], [])]
      rfl
    have hlen : 0 < (provLoop ([], []) providers).1.length := by
      rw [hml]
      exact List.length_pos.mpr (fun he => by rw [he] at hmem; simp at hmem)
    refine ⟨(provLoop ([], []) providers).1, ?_, ?_, (modelEntry_get_names name vp conf).1,
      (modelEntry_get_names name vp conf).2⟩
    · rw [convertConfig_get_providers_keys src (gs "model_list") (by decide) (by decide)
        (by decide) (by decide) (by decide)]
      exact convertProviders_modelList_get_pos src [] providers hm hlen
    · rw [hml]
      exact hmem
  · intro src providers ml hm hml e he
    have hcc : mapGet (ConvertConfig src) (gs "model_list")
        = mapGet (convertProviders src []) (gs "model_list") :=
      convertConfig_get_providers_keys src (gs "model_list") (by decide) (by decide)
        (by decide) (by decide) (by decide)
    by_cases h1 : (provLoop ([], []) providers).1.length > 0
    · have := convertProviders_modelList_get_pos src [] providers hm h1
      rw [hcc, this] at hml
      have harr := Option.some.inj hml
      have hlist := (GoVal.arr.injEq _ _).mp harr
      rw [← hlist] at he
      rw [List.mem_map] at he
      obtain ⟨em, hem, hee⟩ := he
      have hsound : em ∈ provModelEntries providers := by
        have h2 : (provLoop ([], []) providers).1 = provModelEntries providers := by
          rw [provLoop_modelList providers ([], [])]
          rfl
        rw [← h2]
        exact hem
      obtain ⟨n, c, vp, hmm, hvv, hee2⟩ := provModelEntries_sound providers em hsound
      exact ⟨n, c, vp, hmm, hvv, by rw [← hee, hee2]⟩
    · have := convertProviders_modelList_get_neg src [] providers hm h1
      rw [hcc, this] at hml
      exact absurd hml (by rw [mapGet]; simp)

/-- Closed instance of `c5_model_list_entries`. -/
theorem c5_model_list_entries_witness :
    ∃ ml : List GoMap,
      mapGet (ConvertConfig c6src) (gs "model_list")
        = some (GoVal.arr (ml.map GoVal.obj))
      ∧ modelEntry (gs "anthropic") (gs "anthropic")
          [(gs "apiKey", GoVal.str (gs "sk-1"))] ∈ ml
      ∧ mapGet (modelEntry (gs "anthropic") (gs "anthropic")
          [(gs "apiKey", GoVal.str (gs "sk-1"))]) (gs "model_name")
          = some (GoVal.str (gs "anthropic"))
      ∧ mapGet (modelEntry (gs "anthropic") (gs "anthropic")
          [(gs "apiKey", GoVal.str (gs "sk-1"))]) (gs "model")
          = some (GoVal.str (mapGetD defaultModels (gs "anthropic") [])) :=
  c5_model_list_entries.1 c6src
    [(gs "anthropic", GoVal.obj [(gs "apiKey", GoVal.str (gs "sk-1"))])]
    (gs "anthropic") [(gs "apiKey", GoVal.str (gs "sk-1"))] (gs "anthropic")
    rfl rfl (by decide)

/-! ### Workspace migration theorems (claims C2, C3, C8) -/

theorem bak_ne (s : String) : ¬ s = s ++ ".bak" := by
  intro h
  have hlen := congrArg String.length h
  rw [String.length_append] at hlen
  have h4 : (".bak" : String).length = 4 := rfl
  rw [h4] at hlen
  omega

/-- Destination filesystem of claim C2's counterexample: the destination
file already exists and nothing fails. -/
def c2fs : FS := ⟨[("w/f.txt", [1, 2, 3])], []⟩

/-- C2, counterexample.  The claim says the pre-existing destination is
backed up regardless of the force flag.  `migrateFile` (migrate.go:169-174)
backs up only when the destination exists AND force is FALSE; with
`force = true` — which the orchestrator always passes (main.go:752) — the
pre-existing destination is overwritten with no `.bak` copy and the record's
backed-up flag stays false. -/
theorem c2_counterexample :
    fsGet c2fs "w/f.txt" = some [1, 2, 3]
    ∧ (migrateFile c2fs "s/f.txt" "w/f.txt" "f.txt" (some [9]) true).2.BackedUp = false
    ∧ fsGet (migrateFile c2fs "s/f.txt" "w/f.txt" "f.txt" (some [9]) true).1
        "w/f.txt.bak" = none
    ∧ fsGet (migrateFile c2fs "s/f.txt" "w/f.txt" "f.txt" (some [9]) true).1
        "w/f.txt" = some [9] := by
  refine ⟨?_, ?_, ?_, ?_⟩ <;>
    simp [migrateFile, copyFileSafe, countLines, fsGet, fsSet, mapGet, mapSet, c2fs]

/-- C2, amended.  When the destination pre-exists AND the force flag is
false, the prior destination content is copied byte-for-byte to
`dst + ".bak"` before the new content is written and the record's backed-up
flag is set; when the force flag is true no backup is ever made and the flag
stays false, whatever the filesystem state. -/
theorem c2_backup_only_without_force :
    (∀ (fs : FS) (src dst name : String) (data old : Content),
       fsGet fs dst = some old →
       (dst ++ ".bak") ∉ fs.failWrite →
       dst ∉ fs.failWrite →
       (migrateFile fs src dst name (some data) false).2.BackedUp = true
       ∧ fsGet (migrateFile fs src dst name (some data) false).1 (dst ++ ".bak")
           = some old
       ∧ fsGet (migrateFile fs src dst name (some data) false).1 dst = some data)
    ∧ (∀ (fs : FS) (src dst name : String) (data : Content),
       (migrateFile fs src dst name (some data) true).2.BackedUp = false
       ∧ fsGet (migrateFile fs src dst name (some data) true).1 (dst ++ ".bak")
           = fsGet fs (dst ++ ".bak")) := by
  constructor
  · intro fs src dst name data old hold hbak hdst
    have hne : ¬ dst = dst ++ ".bak" := bak_ne dst
    have hcopy1 : copyFileSafe fs dst (some old) (dst ++ ".bak")
        = (fsSet fs (dst ++ ".bak") old, none) := by
      rw [copyFileSafe, if_neg hbak]
    have hcopy2 : copyFileSafe (fsSet fs (dst ++ ".bak") old) src (some data) dst
        = (fsSet (fsSet fs (dst ++ ".bak") old) dst data, none) := by
      rw [copyFileSafe,
        if_neg (show dst ∉ (fsSet fs (dst ++ ".bak") old).failWrite from hdst)]
    rw [migrateFile]
    simp only [hold, Option.isSome_some, Bool.not_false, Bool.and_true, if_pos, hcopy1,
      hcopy2]
    refine ⟨trivial, ?_, ?_⟩
    · show mapGet (mapSet (mapSet fs.files (dst ++ ".bak") old) dst data) (dst ++ ".bak")
        = some old
      rw [mapGet_set_other _ dst (dst ++ ".bak") data (fun h => hne h.symm)]
      exact mapGet_set_self _ _ _
    · show mapGet (mapSet (mapSet fs.files (dst ++ ".bak") old) dst data) dst = some data
      exact mapGet_set_self _ _ _
  · intro fs src dst name data
    rw [migrateFile]
    simp only [Bool.not_true, Bool.and_false, Bool.false_eq_true, if_false]
    rcases h : copyFileSafe fs src (some data) dst with ⟨fs2, e⟩
    rw [copyFileSafe] at h
    cases e with
    | none =>
        simp only [h]
        refine ⟨trivial, ?_⟩
        by_cases hw : dst ∈ fs.failWrite
        · rw [if_pos hw] at h
          exact absurd (congrArg Prod.snd h) (by simp)
        · rw [if_neg hw] at h
          have hfs2 := congrArg Prod.fst h
          simp at hfs2
          rw [← hfs2]
          show mapGet (mapSet fs.files dst data) (dst ++ ".bak")
            = mapGet fs.files (dst ++ ".bak")
          exact mapGet_set_other _ dst (dst ++ ".bak") data (fun hh => bak_ne dst hh.symm)
    | some err =>
        simp only [h]
        refine ⟨trivial, ?_⟩
        by_cases hw : dst ∈ fs.failWrite
        · rw [if_pos hw] at h
          have hfs2 := congrArg Prod.fst h
          simp at hfs2
          rw [← hfs2]
        · rw [if_neg hw] at h
          exact absurd (congrArg Prod.snd h) (by simp)

/-- Closed instance of `c2_backup_only_without_force`. -/
theorem c2_backup_only_without_force_witness :
    ((migrateFile c2fs "s/f.txt" "w/f.txt" "f.txt" (some [9]) false).2.BackedUp = true
      ∧ fsGet (migrateFile c2fs "s/f.txt" "w/f.txt" "f.txt" (some [9]) false).1
          ("w/f.txt" ++ ".bak") = some [1, 2, 3]
      ∧ fsGet (migrateFile c2fs "s/f.txt" "w/f.txt" "f.txt" (some [9]) false).1
          "w/f.txt" = some [9])
    ∧ ((migrateFile c2fs "s/f.txt" "w/f.txt" "f.txt" (some [9]) true).2.BackedUp = false
      ∧ fsGet (migrateFile c2fs "s/f.txt" "w/f.txt" "f.txt" (some [9]) true).1
          ("w/f.txt" ++ ".bak") = fsGet c2fs ("w/f.txt" ++ ".bak")) :=
  ⟨c2_backup_only_without_force.1 c2fs "s/f.txt" "w/f.txt" "f.txt" [9] [1, 2, 3]
      rfl (by decide) (by decide),
   c2_backup_only_without_force.2 c2fs "s/f.txt" "w/f.txt" "f.txt" [9]⟩

/-- Empty destination filesystem for the workspace-walk theorems. -/
def emptyFS : FS := ⟨[], []⟩

/-- Source tree of claim C3's counterexample: a top-level directory holding
an entry named `.git` — a skip-set name — one level down. -/
def c3entries : List Entry := [Entry.dir "proj" [Entry.file ".git" (some [49])]]

/-- C3, counterexample.  The claim says skip-set names are never migrated at
ANY depth.  The skip-set is checked only in the top-level loop
(migrate.go:63); `migrateDirectory` (migrate.go:189-214) re-checks nothing,
so a nested `.git` file IS migrated: it gets a result record and its bytes
are copied under the target root. -/
theorem c3_counterexample :
    ((MigrateWorkspace emptyFS "src" "dst" c3entries true).2.Files.map
        (fun fr => fr.Name)) = ["proj/.git"]
    ∧ fsGet (MigrateWorkspace emptyFS "src" "dst" c3entries true).1 "dst/proj/.git"
        = some [49]
    ∧ (MigrateWorkspace emptyFS "src" "dst" c3entries true).2.Files ≠ [] := by
  refine ⟨?_, ?_, ?_⟩ <;>
    simp [MigrateWorkspace, wsLoop, wsEntryStep, migrateDirectory, migrateFile,
      copyFileSafe, tally, SkipEntries, entryName, pathJoin, baseName, baseNameChars,
      countLines, fsGet, fsSet, mapGet, mapSet, c3entries, emptyFS]

/-- C3, amended.  Skip-set names are honoured only for the IMMEDIATE
children of the source workspace: a top-level entry whose name is in
`SkipEntries` contributes nothing — no filesystem change, no result record —
while entries below the top level are migrated whatever their name
(`c3_counterexample` exhibits a nested `.git` being copied). -/
theorem c3_skiplist_top_level_only :
    (∀ (fs : FS) (srcW dstW : String) (force : Bool) (e : Entry) (rest : List Entry),
       entryName e ∈ SkipEntries →
       MigrateWorkspace fs srcW dstW (e :: rest) force
         = MigrateWorkspace fs srcW dstW rest force)
    ∧ fsGet (MigrateWorkspace emptyFS "src" "dst" c3entries true).1 "dst/proj/.git"
        = some [49] := by
  constructor
  · intro fs srcW dstW force e rest hskip
    rw [MigrateWorkspace, MigrateWorkspace, wsLoop, if_pos hskip]
  · simp [MigrateWorkspace, wsLoop, wsEntryStep, migrateDirectory, migrateFile,
      copyFileSafe, tally, SkipEntries, entryName, pathJoin, baseName, baseNameChars,
      countLines, fsGet, fsSet, mapGet, mapSet, c3entries, emptyFS]

/-- Closed instance of `c3_skiplist_top_level_only`. -/
theorem c3_skiplist_top_level_only_witness :
    MigrateWorkspace emptyFS "s" "d" [Entry.file ".git" (some [1])] true
      = MigrateWorkspace emptyFS "s" "d" [] true :=
  c3_skiplist_top_level_only.1 emptyFS "s" "d" true (Entry.file ".git" (some [1])) []
    (by decide)

/-- A record never carries an error together with the migrated or skipped
flag: the Go code returns as soon as it sets `Error`. -/
def resultInv (fr : FileResult) : Prop :=
  fr.Error.isSome = true → fr.Migrated = false ∧ fr.Skipped = false

theorem copyFileSafe_failWrite (fs : FS) (p : String) (srcData : Option Content)
    (dst : String) : (copyFileSafe fs p srcData dst).1.failWrite = fs.failWrite := by
  cases srcData with
  | none => rfl
  | some data =>
      rw [copyFileSafe]
      by_cases hw : dst ∈ fs.failWrite
      · rw [if_pos hw]
      · rw [if_neg hw]
        rfl

theorem migrateFile_inv (fs : FS) (src dst name : String) (srcContent : Option Content)
    (force : Bool) : resultInv (migrateFile fs src dst name srcContent force).2 := by
  cases srcContent with
  | none =>
      rw [migrateFile]
      intro h
      simp at h
  | some data =>
      rw [migrateFile]
      dsimp only
      split <;> intro h
      · exact ⟨rfl, rfl⟩
      · simp at h

theorem migrateFile_failWrite_error (fs : FS) (src dst name : String) (data : Content)
    (force : Bool) (hw : dst ∈ fs.failWrite) :
    (migrateFile fs src dst name (some data) force).2.Error
      = some (MigErr.copyErr name (IOErr.writeFail dst))
    ∧ (migrateFile fs src dst name (some data) force).2.Migrated = false := by
  rw [migrateFile]
  dsimp only
  have hfs1 : ∀ b : Bool,
      (if b = true then (copyFileSafe fs dst (fsGet fs dst) (dst ++ ".bak")).1
       else fs).failWrite = fs.failWrite := by
    intro b
    split
    · exact copyFileSafe_failWrite _ _ _ _
    · rfl
  split <;> rename_i fs2 e heq
  · rw [copyFileSafe, if_pos (by rw [hfs1]; exact hw)] at heq
    have he := Option.some.inj (congrArg Prod.snd heq).symm
    rw [← he]
    exact ⟨rfl, rfl⟩
  · rw [copyFileSafe, if_pos (by rw [hfs1]; exact hw)] at heq
    exact absurd (congrArg Prod.snd heq) (by simp)

theorem migrateDirectory_inv_aux (n : Nat) :
    ∀ (entries : List Entry), sizeOf entries ≤ n →
    ∀ (fs : FS) (s d : String) (force : Bool) (fr : FileResult),
      fr ∈ (migrateDirectory fs s d entries force).2 → resultInv fr := by
  induction n with
  | zero =>
      intro entries hsz
      cases entries with
      | nil =>
          intro fs s d force fr hfr
          rw [migrateDirectory] at hfr
          simp at hfr
      | cons e rest =>
          exfalso
          simp at hsz
  | succ n ih =>
      intro entries hsz
      cases entries with
      | nil =>
          intro fs s d force fr hfr
          rw [migrateDirectory] at hfr
          simp at hfr
      | cons e rest =>
          intro fs s d force fr hfr
          cases e with
          | dir name subEntries =>
              rw [migrateDirectory] at hfr
              simp only [List.mem_append] at hfr
              have hsub : sizeOf subEntries ≤ n := by simp at hsz; omega
              have hrest : sizeOf rest ≤ n := by simp at hsz; omega
              rcases hfr with hfr | hfr
              · exact ih subEntries hsub _ _ _ _ fr hfr
              · exact ih rest hrest _ _ _ _ fr hfr
          | file name content =>
              rw [migrateDirectory] at hfr
              simp only [List.mem_cons] at hfr
              have hrest : sizeOf rest ≤ n := by simp at hsz; omega
              rcases hfr with hfr | hfr
              · rw [hfr]
                exact migrateFile_inv _ _ _ _ _ _
              · exact ih rest hrest _ _ _ _ fr hfr

theorem migrateDirectory_inv (fs : FS) (s d : String) (entries : List Entry)
    (force : Bool) (fr : FileResult)
    (hfr : fr ∈ (migrateDirectory fs s d entries force).2) : resultInv fr :=
  migrateDirectory_inv_aux (sizeOf entries) entries (Nat.le_refl _) fs s d force fr hfr

theorem wsEntryStep_inv (fs : FS) (s d : String) (force : Bool) (e : Entry)
    (fr : FileResult) (hfr : fr ∈ (wsEntryStep fs s d force e).2) : resultInv fr := by
  cases e with
  | dir name subEntries => exact migrateDirectory_inv _ _ _ _ _ fr hfr
  | file name content =>
      rw [wsEntryStep] at hfr
      simp at hfr
      rw [hfr]
      exact migrateFile_inv _ _ _ _ _ _

/-- Number of errored records in a list. -/
def countErr (l : List FileResult) : Nat :=
  (l.filter (fun fr => fr.Error.isSome)).length

theorem tally_counts (r : Result) (fr : FileResult)
    (h1 : r.Errors = countErr r.Files) (h2 : r.TotalFiles = r.Files.length)
    (hfr : resultInv fr) :
    (tally r fr).Errors = countErr (tally r fr).Files
    ∧ (tally r fr).TotalFiles = (tally r fr).Files.length
    ∧ (tally r fr).Files = r.Files ++ [fr] := by
  rw [tally]
  by_cases hm : fr.Migrated
  · have herr : fr.Error = none := by
      cases he : fr.Error with
      | none => rfl
      | some e => exact absurd (hfr (by rw [he]; rfl)).1 (by simp [hm])
    simp [hm, countErr, List.filter_append, herr, h1, h2]
  · by_cases hs : fr.Skipped
    · have herr : fr.Error = none := by
        cases he : fr.Error with
        | none => rfl
        | some e => exact absurd (hfr (by rw [he]; rfl)).2 (by simp [hs])
      simp [hm, hs, countErr, List.filter_append, herr, h1, h2]
    · by_cases he : fr.Error.isSome
      · simp [hm, hs, he, countErr, List.filter_append, h1, h2]
      · simp [hm, hs, he, countErr, List.filter_append, h1, h2]

theorem foldl_tally_counts (frs : List FileResult) :
    ∀ r : Result, r.Errors = countErr r.Files → r.TotalFiles = r.Files.length →
    (∀ fr ∈ frs, resultInv fr) →
    (frs.foldl tally r).Errors = countErr (frs.foldl tally r).Files
    ∧ (frs.foldl tally r).TotalFiles = (frs.foldl tally r).Files.length
    ∧ (frs.foldl tally r).Files = r.Files ++ frs := by
  induction frs with
  | nil => intro r h1 h2 _; exact ⟨h1, h2, by simp⟩
  | cons fr rest ih =>
      intro r h1 h2 hinv
      have hfr : resultInv fr := hinv fr (by simp)
      obtain ⟨t1, t2, t3⟩ := tally_counts r fr h1 h2 hfr
      have hrest : ∀ x ∈ rest, resultInv x := fun x hx => hinv x (by simp [hx])
      obtain ⟨g1, g2, g3⟩ := ih (tally r fr) t1 t2 hrest
      refine ⟨g1, g2, ?_⟩
      rw [List.foldl_cons, g3, t3]
      simp

theorem wsLoop_counts (entries : List Entry) (srcW dstW : String) (force : Bool) :
    ∀ (fs : FS) (r : Result),
      r.Errors = countErr r.Files → r.TotalFiles = r.Files.length →
      (wsLoop fs srcW dstW force r entries).2.Errors
          = countErr (wsLoop fs srcW dstW force r entries).2.Files
      ∧ (wsLoop fs srcW dstW force r entries).2.TotalFiles
          = (wsLoop fs srcW dstW force r entries).2.Files.length := by
  induction entries with
  | nil => intro fs r h1 h2; exact ⟨h1, h2⟩
  | cons e rest ih =>
      intro fs r h1 h2
      rw [wsLoop]
      by_cases hskip : entryName e ∈ SkipEntries
      · rw [if_pos hskip]
        exact ih fs r h1 h2
      · rw [if_neg hskip]
        have hinv : ∀ fr ∈ (wsEntryStep fs srcW dstW force e).2, resultInv fr :=
          fun fr hfr => wsEntryStep_inv fs srcW dstW force e fr hfr
        obtain ⟨t1, t2, _⟩ := foldl_tally_counts (wsEntryStep fs srcW dstW force e).2
          r h1 h2 hinv
        exact ih _ _ t1 t2

theorem tally_files (r : Result) (fr : FileResult) :
    (tally r fr).Files = r.Files ++ [fr] := by
  by_cases h1 : fr.Migrated <;> by_cases h2 : fr.Skipped <;>
    by_cases h3 : fr.Error.isSome <;> simp [tally, h1, h2, h3]

theorem foldl_tally_files (frs : List FileResult) :
    ∀ r : Result, (frs.foldl tally r).Files = r.Files ++ frs := by
  induction frs with
  | nil => intro r; simp
  | cons fr rest ih =>
      intro r
      rw [List.foldl_cons, ih, tally_files]
      simp

theorem wsLoop_files (entries : List Entry) (srcW dstW : String) (force : Bool) :
    ∀ (fs : FS) (r : Result),
      (wsLoop fs srcW dstW force r entries).2.Files
        = r.Files ++ (wsLoop fs srcW dstW force {} entries).2.Files := by
  induction entries with
  | nil => intro fs r; simp [wsLoop]
  | cons e rest ih =>
      intro fs r
      rw [wsLoop, wsLoop]
      by_cases hskip : entryName e ∈ SkipEntries
      · rw [if_pos hskip, if_pos hskip]
        exact ih fs r
      · rw [if_neg hskip, if_neg hskip]
        rw [ih _ ((wsEntryStep fs srcW dstW force e).2.foldl tally r),
          ih _ ((wsEntryStep fs srcW dstW force e).2.foldl tally ({} : Result)),
          foldl_tally_files, foldl_tally_files]
        simp

/-- C8 (confirmed).  A failing copy yields a record carrying the underlying
cause; the batch is not aborted — the records of a failing entry and of all
its later siblings all appear, in order, in the aggregate `Files` list; and
the aggregate error counter equals exactly the number of errored records. -/
theorem c8_errors_recorded_not_aborted_tallied :
    (∀ (fs : FS) (src dst name : String) (data : Content) (force : Bool),
       dst ∈ fs.failWrite →
       (migrateFile fs src dst name (some data) force).2.Error
         = some (MigErr.copyErr name (IOErr.writeFail dst))
       ∧ (migrateFile fs src dst name (some data) force).2.Migrated = false)
    ∧ (∀ (fs : FS) (srcW dstW : String) (force : Bool) (e : Entry) (rest : List Entry),
       entryName e ∉ SkipEntries →
       (MigrateWorkspace fs srcW dstW (e :: rest) force).2.Files
         = (wsEntryStep fs srcW dstW force e).2
           ++ (MigrateWorkspace (wsEntryStep fs srcW dstW force e).1
                srcW dstW rest force).2.Files)
    ∧ (∀ (fs : FS) (srcW dstW : String) (entries : List Entry) (force : Bool),
       (MigrateWorkspace fs srcW dstW entries force).2.Errors
         = countErr (MigrateWorkspace fs srcW dstW entries force).2.Files
       ∧ (MigrateWorkspace fs srcW dstW entries force).2.TotalFiles
         = (MigrateWorkspace fs srcW dstW entries force).2.Files.length) := by
  refine ⟨?_, ?_, ?_⟩
  · intro fs src dst name data force hw
    exact migrateFile_failWrite_error fs src dst name data force hw
  · intro fs srcW dstW force e rest hskip
    rw [MigrateWorkspace, MigrateWorkspace, wsLoop, if_neg hskip]
    rw [wsLoop_files rest srcW dstW force _
      ((wsEntryStep fs srcW dstW force e).2.foldl tally ({} : Result)),
      foldl_tally_files]
    simp
  · intro fs srcW dstW entries force
    exact wsLoop_counts entries srcW dstW force fs {} rfl rfl

/-- Closed instance of `c8_errors_recorded_not_aborted_tallied`: a
destination that fails to write yields the errored record with its cause,
and a failing first entry does not stop its sibling from being processed. -/
theorem c8_errors_recorded_not_aborted_tallied_witness :
    ((migrateFile ⟨[], ["d/f"]⟩ "s/f" "d/f" "f" (some [7]) true).2.Error
       = some (MigErr.copyErr "f" (IOErr.writeFail "d/f"))
     ∧ (migrateFile ⟨[], ["d/f"]⟩ "s/f" "d/f" "f" (some [7]) true).2.Migrated = false)
    ∧ (MigrateWorkspace ⟨[], ["d/a"]⟩ "s" "d"
        [Entry.file "a" (some [1]), Entry.file "b" (some [2])] true).2.Files
      = (wsEntryStep ⟨[], ["d/a"]⟩ "s" "d" true (Entry.file "a" (some [1]))).2
        ++ (MigrateWorkspace (wsEntryStep ⟨[], ["d/a"]⟩ "s" "d" true
              (Entry.file "a" (some [1]))).1 "s" "d" [Entry.file "b" (some [2])]
              true).2.Files :=
  ⟨c8_errors_recorded_not_aborted_tallied.1 ⟨[], ["d/f"]⟩ "s/f" "d/f" "f" [7] true
      (by decide),
   c8_errors_recorded_not_aborted_tallied.2.1 ⟨[], ["d/a"]⟩ "s" "d" true
      (Entry.file "a" (some [1])) [Entry.file "b" (some [2])] (by decide)⟩

/-- C10 (confirmed).  Whenever the target configuration file exists,
`MigrateConfig` copies it to `<path>.bak` before writing the merged
configuration — for EVERY value of the force flag, which the function never
consults (contrast `migrateFile`) — and the backed-up flag is set exactly
when that backup copy succeeded: it stays false when the backup write
fails. -/
theorem c10_config_backup_ignores_force :
    (∀ (parse : Content → Option GoMap) (marshal : GoMap → Content) (fs : FS)
       (ocPath picoPath : String) (force : Bool) (data : Content) (cfg : GoMap)
       (old : Content),
       fsGet fs ocPath = some data → parse data = some cfg →
       fsGet fs picoPath = some old →
       (picoPath ++ ".bak") ∉ fs.failWrite →
       (MigrateConfig parse marshal fs ocPath picoPath force).2.BackedUp = true
       ∧ fsGet (MigrateConfig parse marshal fs ocPath picoPath force).1
           (picoPath ++ ".bak") = some old)
    ∧ (∀ (parse : Content → Option GoMap) (marshal : GoMap → Content) (fs : FS)
       (ocPath picoPath : String) (force : Bool) (data : Content) (cfg : GoMap)
       (old : Content),
       fsGet fs ocPath = some data → parse data = some cfg →
       fsGet fs picoPath = some old →
       (picoPath ++ ".bak") ∈ fs.failWrite →
       (MigrateConfig parse marshal fs ocPath picoPath force).2.BackedUp = false) := by
  constructor
  · intro parse marshal fs ocPath picoPath force data cfg old hoc hparse hpico hbak
    have hcopy : copyFileSafe fs picoPath (some old) (picoPath ++ ".bak")
        = (fsSet fs (picoPath ++ ".bak") old, none) := by
      rw [copyFileSafe, if_neg hbak]
    rw [MigrateConfig]
    simp only [hoc, Option.some_bind, hparse, hpico, Option.isSome_some, hcopy]
    simp only [if_true, eq_self_iff_true]
    by_cases hw : picoPath ∈ (fsSet fs (picoPath ++ ".bak") old).failWrite
    · simp only [if_pos hw]
      exact ⟨trivial, mapGet_set_self _ _ _⟩
    · simp only [if_neg hw]
      refine ⟨trivial, ?_⟩
      show mapGet (mapSet (mapSet fs.files (picoPath ++ ".bak") old) picoPath _)
          (picoPath ++ ".bak") = some old
      rw [mapGet_set_other _ picoPath (picoPath ++ ".bak") _
        (fun h => bak_ne picoPath h.symm)]
      exact mapGet_set_self _ _ _
  · intro parse marshal fs ocPath picoPath force data cfg old hoc hparse hpico hbak
    have hcopy : copyFileSafe fs picoPath (some old) (picoPath ++ ".bak")
        = (fs, some (IOErr.writeFail (picoPath ++ ".bak"))) := by
      rw [copyFileSafe, if_pos hbak]
    rw [MigrateConfig]
    simp only [hoc, Option.some_bind, hparse, hpico, Option.isSome_some, hcopy]
    simp only [if_true, eq_self_iff_true]
    by_cases hw : picoPath ∈ fs.failWrite
    · simp only [if_pos hw]
    · simp only [if_neg hw]

/-- Closed instance of `c10_config_backup_ignores_force`, with force = true
on one side and force = false on the other. -/
theorem c10_config_backup_ignores_force_witness :
    ((MigrateConfig (fun c => if c = [1] then some [] else none) (fun _ => [2])
        ⟨[("oc", [1]), ("pc", [5])], []⟩ "oc" "pc" true).2.BackedUp = true
     ∧ fsGet (MigrateConfig (fun c => if c = [1] then some [] else none) (fun _ => [2])
        ⟨[("oc", [1]), ("pc", [5])], []⟩ "oc" "pc" true).1 ("pc" ++ ".bak") = some [5])
    ∧ (MigrateConfig (fun c => if c = [1] then some [] else none) (fun _ => [2])
        ⟨[("oc", [1]), ("pc", [5])], ["pc.bak"]⟩ "oc" "pc" false).2.BackedUp = false :=
  ⟨c10_config_backup_ignores_force.1 (fun c => if c = [1] then some [] else none)
      (fun _ => [2]) ⟨[("oc", [1]), ("pc", [5])], []⟩ "oc" "pc" true [1] [] [5]
      rfl rfl rfl (by decide),
   c10_config_backup_ignores_force.2 (fun c => if c = [1] then some [] else none)
      (fun _ => [2]) ⟨[("oc", [1]), ("pc", [5])], ["pc.bak"]⟩ "oc" "pc" false [1] [] [5]
      rfl rfl rfl (by decide)⟩

namespace HeapModel

/-- Frame relation: the heap evolved without touching any pre-existing cell
outside `allowed`, and the allocation counter never went backwards. -/
def FrameOutside (h h2 : Heap) (allowed : List Nat) : Prop :=
  h.next ≤ h2.next ∧ ∀ a, a < h.next → a ∉ allowed → h2.maps a = h.maps a

theorem frame_refl (h : Heap) (l : List Nat) : FrameOutside h h l :=
  ⟨Nat.le_refl _, fun _ _ _ => rfl⟩

theorem frame_comp_absorb {h h1 h2 : Heap} {l l2 : List Nat}
    (f1 : FrameOutside h h1 l) (f2 : FrameOutside h1 h2 l2)
    (habs : ∀ x ∈ l2, x ∈ l ∨ h.next ≤ x) : FrameOutside h h2 l := by
  refine ⟨Nat.le_trans f1.1 f2.1, ?_⟩
  intro a ha hal
  have hal2 : a ∉ l2 := by
    intro hx
    rcases habs a hx with hx | hx
    · exact hal hx
    · omega
  rw [f2.2 a (Nat.lt_of_lt_of_le ha f1.1) hal2, f1.2 a ha hal]

theorem frame_comp {h h1 h2 : Heap} {l : List Nat}
    (f1 : FrameOutside h h1 l) (f2 : FrameOutside h1 h2 l) : FrameOutside h h2 l :=
  frame_comp_absorb f1 f2 (fun _ hx => Or.inl hx)

theorem frame_alloc {h h1 : Heap} {l : List Nat} (f1 : FrameOutside h h1 l) :
    FrameOutside h (alloc h1).1 l := by
  refine ⟨Nat.le_trans f1.1 (Nat.le_succ _), ?_⟩
  intro a ha hal
  have hne : ¬ a = h1.next := by
    have := f1.1
    omega
  show (if a = h1.next then [] else h1.maps a) = h.maps a
  rw [if_neg hne]
  exact f1.2 a ha hal

theorem frame_write {h h1 : Heap} {l : List Nat} (f1 : FrameOutside h h1 l)
    (a : Nat) (k : GoStr) (v : HVal) (ha : a ∈ l ∨ h.next ≤ a) :
    FrameOutside h (hwrite h1 a k v) l := by
  refine ⟨f1.1, ?_⟩
  intro b hb hbl
  have hne : ¬ b = a := by
    rcases ha with ha | ha
    · exact fun he => hbl (he ▸ ha)
    · omega
  show (if b = a then mapSet (h1.maps b) k v else h1.maps b) = h.maps b
  rw [if_neg hne]
  exact f1.2 b hb hbl

theorem alloc_addr_ge {h h1 : Heap} {l : List Nat} (f1 : FrameOutside h h1 l) :
    h.next ≤ (alloc h1).2 := f1.1

theorem convertMCPServersM_frame (h : Heap) (src dst : Nat) :
    FrameOutside h (convertMCPServersM h src dst) [dst] := by
  rw [convertMCPServersM]
  split
  · exact frame_write (frame_refl h [dst]) dst _ _ (Or.inl (by simp))
  · exact frame_refl h [dst]

theorem alloc_snd (h : Heap) : (alloc h).2 = h.next := rfl

theorem alloc_fst_next (h : Heap) : (alloc h).1.next = h.next + 1 := rfl

theorem hwrite_next (h : Heap) (a : Nat) (k : GoStr) (v : HVal) :
    (hwrite h a k v).next = h.next := rfl

theorem convertHeartbeatM_frame (h : Heap) (src dst : Nat) :
    FrameOutside h (convertHeartbeatM h src dst) [dst] := by
  rw [convertHeartbeatM]
  split
  · apply frame_write _ dst _ _ (Or.inl (by simp))
    split
    · apply frame_write _ _ _ _ (Or.inr (by simp only [alloc_snd]; omega))
      split
      · apply frame_write _ _ _ _ (Or.inr (by simp only [alloc_snd]; omega))
        exact frame_write (frame_write (frame_alloc (frame_refl h [dst])) _ _ _
          (Or.inr (by simp only [alloc_snd]; omega))) _ _ _
          (Or.inr (by simp only [alloc_snd]; omega))
      · exact frame_write (frame_write (frame_alloc (frame_refl h [dst])) _ _ _
          (Or.inr (by simp only [alloc_snd]; omega))) _ _ _
          (Or.inr (by simp only [alloc_snd]; omega))
    · split
      · apply frame_write _ _ _ _ (Or.inr (by simp only [alloc_snd]; omega))
        exact frame_write (frame_write (frame_alloc (frame_refl h [dst])) _ _ _
          (Or.inr (by simp only [alloc_snd]; omega))) _ _ _
          (Or.inr (by simp only [alloc_snd]; omega))
      · exact frame_write (frame_write (frame_alloc (frame_refl h [dst])) _ _ _
          (Or.inr (by simp only [alloc_snd]; omega))) _ _ _
          (Or.inr (by simp only [alloc_snd]; omega))
  · apply frame_write _ dst _ _ (Or.inl (by simp))
    exact frame_write (frame_write (frame_alloc (frame_refl h [dst])) _ _ _
      (Or.inr (by simp only [alloc_snd]; omega))) _ _ _
      (Or.inr (by simp only [alloc_snd]; omega))

theorem foldl_hwrite_frame (fields : List (GoStr × HVal)) :
    ∀ {h h1 : Heap} {l : List Nat}, FrameOutside h h1 l →
    ∀ p : Nat, (p ∈ l ∨ h.next ≤ p) →
    FrameOutside h
      (fields.foldl (fun hh kv => hwrite hh p (camelToSnake kv.1) kv.2) h1) l := by
  induction fields with
  | nil => intro h h1 l f1 p _; exact f1
  | cons kv rest ih =>
      intro h h1 l f1 p hp
      rw [List.foldl_cons]
      exact ih (frame_write f1 p _ _ hp) p hp

theorem chanLoopM_frame (l : List (GoStr × HVal)) :
    ∀ (h : Heap) (pc : Nat), FrameOutside h (chanLoopM h pc l) [pc] := by
  induction l with
  | nil => intro h pc; exact frame_refl h [pc]
  | cons kv rest ih =>
      intro h pc
      obtain ⟨name, v⟩ := kv
      cases v with
      | ref chConf =>
          rw [chanLoopM]
          split
          · refine frame_comp ?_ (ih _ pc)
            apply frame_write _ pc _ _ (Or.inl (by simp))
            exact foldl_hwrite_frame _ (frame_alloc (frame_refl h [pc])) _
              (Or.inr (Nat.le_of_eq (alloc_snd h).symm))
          · exact ih h pc
      | null => rw [chanLoopM]; split <;> exact ih h pc
      | bool b => rw [chanLoopM]; split <;> exact ih h pc
      | num n => rw [chanLoopM]; split <;> exact ih h pc
      | str s2 => rw [chanLoopM]; split <;> exact ih h pc
      | arr xs => rw [chanLoopM]; split <;> exact ih h pc

theorem convertChannelsM_frame (h : Heap) (src dst : Nat) :
    FrameOutside h (convertChannelsM h src dst) [dst] := by
  rw [convertChannelsM]
  split
  · dsimp only
    split
    · apply frame_write _ dst _ _ (Or.inl (by simp))
      exact frame_comp_absorb (frame_alloc (frame_refl h [dst]))
        (chanLoopM_frame _ _ _)
        (fun x hx => Or.inr (by
          simp only [List.mem_singleton] at hx
          rw [hx]
          exact Nat.le_of_eq (alloc_snd h).symm))
    · exact frame_comp_absorb (frame_alloc (frame_refl h [dst]))
        (chanLoopM_frame _ _ _)
        (fun x hx => Or.inr (by
          simp only [List.mem_singleton] at hx
          rw [hx]
          exact Nat.le_of_eq (alloc_snd h).symm))
  · exact frame_refl h [dst]

theorem agentFieldLoopM_frame (fm : List (GoStr × GoStr)) :
    ∀ (h : Heap) (defaults agent : Nat),
      FrameOutside h (agentFieldLoopM h defaults agent fm) [defaults] := by
  induction fm with
  | nil => intro h defaults agent; exact frame_refl h [defaults]
  | cons kv rest ih =>
      intro h defaults agent
      obtain ⟨srcKey, dstKey⟩ := kv
      rw [agentFieldLoopM]
      refine frame_comp ?_ (ih _ defaults agent)
      split
      · split
        · split
          · exact frame_write (frame_refl h [defaults]) defaults _ _ (Or.inl (by simp))
          · exact frame_refl h [defaults]
        · split
          · exact frame_write (frame_refl h [defaults]) defaults _ _ (Or.inl (by simp))
          · exact frame_refl h [defaults]
        · exact frame_write (frame_refl h [defaults]) defaults _ _ (Or.inl (by simp))
      · exact frame_refl h [defaults]

theorem convertAgentDefaultsM_frame (h : Heap) (src dst : Nat) :
    FrameOutside h (convertAgentDefaultsM h src dst) [dst] := by
  rw [convertAgentDefaultsM]
  split
  · exact frame_refl h [dst]
  · apply frame_write _ dst _ _ (Or.inl (by simp))
    refine frame_comp_absorb ?_ (agentFieldLoopM_frame agentFieldMap _ _ _)
      (fun x hx => Or.inr (by
        simp only [List.mem_singleton] at hx
        rw [hx]
        exact Nat.le_of_eq (alloc_snd h).symm))
    have base : FrameOutside h
        (hwrite (alloc (hwrite (alloc h).1 (alloc h).2 (gs "workspace")
            (HVal.str (gs "~/.picoclaw/workspace")))).1
          (alloc (hwrite (alloc h).1 (alloc h).2 (gs "workspace")
            (HVal.str (gs "~/.picoclaw/workspace")))).2
          (gs "defaults") (HVal.ref (alloc h).2)) [dst] := by
      apply frame_write _ _ _ _ (Or.inr (by
        simp only [alloc_snd, hwrite_next, alloc_fst_next]
        omega))
      apply frame_alloc
      apply frame_write _ _ _ _ (Or.inr (Nat.le_of_eq (alloc_snd h).symm))
      exact frame_alloc (frame_refl h [dst])
    split
    · split
      · exact frame_write base _ _ _ (Or.inr (Nat.le_of_eq (alloc_snd h).symm))
      · exact base
    · split
      · exact frame_write base _ _ _ (Or.inr (Nat.le_of_eq (alloc_snd h).symm))
      · exact base
    · exact base

theorem convertToolsM_frame (h : Heap) (src dst : Nat) :
    FrameOutside h (convertToolsM h src dst) [dst] := by
  rw [convertToolsM]
  split
  · dsimp only
    repeat'
      first
        | exact frame_refl h [dst]
        | apply frame_alloc
        | (apply frame_write _ dst _ _ (Or.inl (by simp)))
        | (apply frame_write _ _ _ _ (Or.inr (by
            simp only [alloc_snd, hwrite_next, alloc_fst_next]
            omega)))
        | split
  · exact frame_refl h [dst]

theorem next_ite (c : Prop) [Decidable c] (a b : Heap) :
    (if c then a else b).next = if c then a.next else b.next := by
  split <;> rfl

theorem provStepM_frame (h : Heap) (pp : Nat) (ml : List HVal) (name : GoStr)
    (v : HVal) : FrameOutside h (provStepM h pp ml name v).1 [pp] := by
  cases v with
  | ref conf =>
      rw [provStepM]
      dsimp only
      repeat'
        first
          | exact frame_refl h [pp]
          | apply frame_alloc
          | (apply frame_write _ pp _ _ (Or.inl (by simp)))
          | (apply frame_write _ _ _ _ (Or.inr (by
              simp only [alloc_snd, hwrite_next, alloc_fst_next, next_ite, ite_self]
              omega)))
          | split
  | null => exact frame_refl h [pp]
  | bool b => exact frame_refl h [pp]
  | num n => exact frame_refl h [pp]
  | str s2 => exact frame_refl h [pp]
  | arr xs => exact frame_refl h [pp]

theorem provLoopM_frame (l : List (GoStr × HVal)) :
    ∀ (h : Heap) (pp : Nat) (ml : List HVal),
      FrameOutside h (provLoopM h pp ml l).1 [pp] := by
  induction l with
  | nil => intro h pp ml; exact frame_refl h [pp]
  | cons kv rest ih =>
      intro h pp ml
      obtain ⟨name, v⟩ := kv
      rw [provLoopM]
      exact frame_comp (provStepM_frame h pp ml name v) (ih _ pp _)

theorem convertProvidersM_frame (h : Heap) (src dst : Nat) :
    FrameOutside h (convertProvidersM h src dst) [dst] := by
  rw [convertProvidersM]
  split
  · rename_i pAddr heq
    dsimp only
    have base : FrameOutside h
        (provLoopM (alloc h).1 (alloc h).2 [] ((alloc h).1.maps pAddr)).1 [dst] :=
      frame_comp_absorb (frame_alloc (frame_refl h [dst])) (provLoopM_frame _ _ _ _)
        (fun x hx => Or.inr (by
          simp only [List.mem_singleton] at hx
          rw [hx]
          exact Nat.le_of_eq (alloc_snd h).symm))
    split
    · split
      · exact frame_write (frame_write base dst _ _ (Or.inl (by simp))) dst _ _
          (Or.inl (by simp))
      · exact frame_write base dst _ _ (Or.inl (by simp))
    · split
      · exact frame_write base dst _ _ (Or.inl (by simp))
      · exact base
  · exact frame_refl h [dst]

/-- C9 (confirmed).  `ConvertConfig` never mutates the source document: in
the reference-semantics model, every heap cell that existed before the call
— in particular the source document's map and every nested map reachable
from it — holds exactly the same contents afterwards, and no pre-existing
cell is ever re-used for the output.  The output is a pure function of the
heap and source address together with the embedded fixed tables
(`vendorMap`, `defaultModels`, `supportedChannels`), there being no other
inputs in the model. -/
theorem c9_convert_never_mutates_source :
    ∀ (h : Heap) (src : Nat) (a : Nat), a < h.next →
      (ConvertConfigM h src).1.maps a = h.maps a
      ∧ h.next ≤ (ConvertConfigM h src).1.next := by
  intro h src a ha
  rw [ConvertConfigM]
  dsimp only
  have f1 := frame_alloc (frame_refl h [(alloc h).2])
  have f2 := frame_comp f1 (convertProvidersM_frame (alloc h).1 src (alloc h).2)
  have f3 := frame_comp f2 (convertAgentDefaultsM_frame _ src (alloc h).2)
  have f4 := frame_comp f3 (convertChannelsM_frame _ src (alloc h).2)
  have f5 := frame_comp f4 (convertToolsM_frame _ src (alloc h).2)
  have f6 := frame_comp f5 (convertHeartbeatM_frame _ src (alloc h).2)
  have f7 := frame_comp f6 (convertMCPServersM_frame _ src (alloc h).2)
  refine ⟨?_, f7.1⟩
  refine f7.2 a ha ?_
  simp only [List.mem_singleton, alloc_snd]
  omega

/-- Closed instance of `c9_convert_never_mutates_source`: a one-cell heap
holding the source document survives the conversion untouched. -/
theorem c9_convert_never_mutates_source_witness :
    (ConvertConfigM
        ⟨1, fun a => if a = 0 then [(gs "agent", HVal.str (gs "x"))] else []⟩ 0).1.maps 0
      = (fun a => if a = 0 then [(gs "agent", HVal.str (gs "x"))] else []) 0
    ∧ (1 : Nat) ≤ (ConvertConfigM
        ⟨1, fun a => if a = 0 then [(gs "agent", HVal.str (gs "x"))] else []⟩ 0).1.next :=
  c9_convert_never_mutates_source
    ⟨1, fun a => if a = 0 then [(gs "agent", HVal.str (gs "x"))] else []⟩ 0 0
    (by decide)

end HeapModel
